import Mathlib

/-!
# Heap allocator (`src/malloc.c`): embedding and verification

The allocator threads a singly linked chain of `struct _block` headers through
the memory it manages.  Headers and payloads live in the same bytes, and the
splitting code computes header addresses by pointer arithmetic, so the
embedding keeps the memory as a map from byte addresses to bytes and reads and
writes the header fields through it.

Data layout (LP64, little endian; the platform of `sbrk`):

* `size_t size`          at offset 0, 8 bytes
* `struct _block *next`  at offset 8, 8 bytes
* `bool free`            at offset 16, 1 byte
* `char padding[3]` and tail padding up to `sizeof (struct _block) = 24`

`size_t` arithmetic is taken modulo `2 ^ 64`.  The `NULL` pointer is `0`.
Loops that follow `next` pointers take a fuel argument; running out of fuel is
reported separately from every result of the C code.
-/

namespace HeapAlloc

/-! ## Byte memory -/

/-- Contents of the address space: one byte per address. -/
abbrev Mem := Nat → Nat

/-- Number of values of a `size_t` or of a pointer. -/
def WORD : Nat := 2 ^ 64

/-- `sizeof (struct _block)`. -/
def HDR : Nat := 24

/-- Offset of the field `size` in `struct _block`. -/
def OFF_SIZE : Nat := 0

/-- Offset of the field `next` in `struct _block`. -/
def OFF_NEXT : Nat := 8

/-- Offset of the field `free` in `struct _block`. -/
def OFF_FREE : Nat := 16

/-- Read of one byte. -/
def load8 (m : Mem) (a : Nat) : Nat := m a % 256

/-- Read of an 8-byte little-endian word. -/
def load64 (m : Mem) (a : Nat) : Nat :=
  load8 m a + 256 * (load8 m (a + 1) + 256 * (load8 m (a + 2) + 256 * (load8 m (a + 3)
    + 256 * (load8 m (a + 4) + 256 * (load8 m (a + 5) + 256 * (load8 m (a + 6)
    + 256 * load8 m (a + 7)))))))

/-- Write of one byte. -/
def store8 (m : Mem) (a v : Nat) : Mem :=
  fun x => if x = a then v % 256 else m x

/-- Write of an 8-byte little-endian word. -/
def store64 (m : Mem) (a v : Nat) : Mem :=
  fun x => if a ≤ x ∧ x < a + 8 then v / 256 ^ (x - a) % 256 else m x

/-- The library call `memset (a, c, n)`. -/
def memset (m : Mem) (a c n : Nat) : Mem :=
  fun x => if a ≤ x ∧ x < a + n then c % 256 else m x

/-! ## Header fields -/

/-- Read of `b->size`. -/
def ldSize (m : Mem) (b : Nat) : Nat := load64 m (b + OFF_SIZE)

/-- Read of `b->next`. -/
def ldNext (m : Mem) (b : Nat) : Nat := load64 m (b + OFF_NEXT)

/-- Read of `b->free`, as the stored byte. -/
def ldFree (m : Mem) (b : Nat) : Nat := load8 m (b + OFF_FREE)

/-- Assignment `b->size = v`. -/
def stSize (m : Mem) (b v : Nat) : Mem := store64 m (b + OFF_SIZE) v

/-- Assignment `b->next = v`. -/
def stNext (m : Mem) (b v : Nat) : Mem := store64 m (b + OFF_NEXT) v

/-- Assignment `b->free = v`. -/
def stFree (m : Mem) (b v : Nat) : Mem := store8 m (b + OFF_FREE) v

/-- The source's `ALIGN4(s)`: `(((s - 1) >> 2) << 2) + 4` in `size_t` arithmetic. -/
def ALIGN4 (s : Nat) : Nat :=
  ((((s + WORD - 1) % WORD) / 4 * 4) % WORD + 4) % WORD

/-- The source's `BLOCK_DATA(b)`: `b + 1` on a `struct _block *`. -/
def BLOCK_DATA (b : Nat) : Nat := (b + HDR) % WORD

/-- The source's `BLOCK_HEADER(ptr)`: `(struct _block *) ptr - 1`. -/
def BLOCK_HEADER (ptr : Nat) : Nat := (ptr + WORD - HDR) % WORD

/-! ## Program state -/

/-- The global variables of `malloc.c`, the memory and the program break. -/
structure Heap where
  /-- The bytes of the address space. -/
  mem : Mem
  /-- Current program break, the value of `sbrk (0)`. -/
  brk : Nat
  /-- Highest program break the system grants. -/
  brkMax : Nat
  /-- The variable `freeList`. -/
  freeList : Nat
  /-- The variable `nextStart`. -/
  nextStart : Nat
  /-- The variable `atexit_registered`. -/
  atexit_registered : Int
  /-- The variable `num_mallocs`. -/
  num_mallocs : Int
  /-- The variable `num_frees`. -/
  num_frees : Int
  /-- The variable `num_reuses`. -/
  num_reuses : Int
  /-- The variable `num_grows`. -/
  num_grows : Int
  /-- The variable `num_splits`. -/
  num_splits : Int
  /-- The variable `num_coalesces`. -/
  num_coalesces : Int
  /-- The variable `num_blocks`. -/
  num_blocks : Int
  /-- The variable `num_requested`. -/
  num_requested : Int
  /-- The variable `max_heap`. -/
  max_heap : Int

/-- Result of storing the `size_t` sum `c + n` into an `int` counter. -/
def addToInt (c : Int) (n : Nat) : Int :=
  (c + (n : Int) + 2 ^ 31) % 2 ^ 32 - 2 ^ 31

/-- The state at program start: no block, all counters zero. -/
def initHeap (m : Mem) (brk brkMax : Nat) : Heap :=
  { mem := m, brk := brk, brkMax := brkMax, freeList := 0, nextStart := 0,
    atexit_registered := 0, num_mallocs := 0, num_frees := 0, num_reuses := 0,
    num_grows := 0, num_splits := 0, num_coalesces := 0, num_blocks := 0,
    num_requested := 0, max_heap := 0 }

/-- How a call ends. -/
inductive Outcome (α : Type) where
  /-- The call returns `v` in state `s`. -/
  | ret (v : α) (s : Heap) : Outcome α
  /-- An `assert` fails in state `s` and the process is aborted. -/
  | abort (s : Heap) : Outcome α
  /-- The fuel ran out inside a loop. -/
  | fuelOut : Outcome α

/-- Sequencing of calls: `f` runs on the value and the state of a call that
returned. -/
def Outcome.bind {α β : Type} (o : Outcome α) (f : α → Heap → Outcome β) : Outcome β :=
  match o with
  | Outcome.ret v s => f v s
  | Outcome.abort s => Outcome.abort s
  | Outcome.fuelOut => Outcome.fuelOut

/-- The value of a call that returned. -/
def Outcome.value? {α : Type} : Outcome α → Option α
  | Outcome.ret v _ => some v
  | Outcome.abort _ => none
  | Outcome.fuelOut => none

/-- The state after a call that returned, `d` otherwise. -/
def Outcome.heapOr {α : Type} (d : Heap) : Outcome α → Heap
  | Outcome.ret _ s => s
  | Outcome.abort _ => d
  | Outcome.fuelOut => d

/-- Whether the call ended in a failed `assert`. -/
def Outcome.aborted {α : Type} : Outcome α → Bool
  | Outcome.ret _ _ => false
  | Outcome.abort _ => true
  | Outcome.fuelOut => false

/-- The fit strategy selected when the file is compiled. -/
inductive Fit where
  /-- Built with `FIT=0`. -/
  | first : Fit
  /-- Built with `BEST=0`. -/
  | best : Fit
  /-- Built with `WORST=0`. -/
  | worst : Fit
  /-- Built with `NEXT=0`. -/
  | next : Fit
  deriving DecidableEq, Repr

/-- Modelled from the spec: the heap-extend primitive `sbrk`, which is not part
of the repository.  Given a byte count it returns the previous program break,
the start of a region that follows the previously returned one, and moves the
break up; when the request cannot be satisfied it returns `(void *) -1` and
leaves the break where it is. -/
def sbrk (s : Heap) (n : Nat) : Nat × Heap :=
  if s.brk + n ≤ s.brkMax then (s.brk, { s with brk := s.brk + n })
  else (WORD - 1, s)

/-! ## `findFreeBlock` -/

/-- The `while` loop of the first-fit and of the next-fit search: it walks from
`curr` while the block is not free or too small, storing each block it leaves
in `*last`.  The result is the final `curr` and the final `*last`. -/
def scanLoop (m : Mem) (size : Nat) : Nat → Nat → Nat → Option (Nat × Nat)
  | 0, _, _ => none
  | fuel + 1, curr, last =>
    if curr ≠ 0 ∧ ¬ (ldFree m curr ≠ 0 ∧ size ≤ ldSize m curr) then
      scanLoop m size fuel (ldNext m curr) curr
    else some (curr, last)

/-- The `while (curr)` loop of the best-fit search; the result is `candidate`
when the loop ends, which it does with `curr == NULL`. -/
def bestLoop (m : Mem) (size : Nat) : Nat → Nat → Nat → Option Nat
  | 0, _, _ => none
  | fuel + 1, curr, candidate =>
    if curr ≠ 0 then
      bestLoop m size fuel (ldNext m curr)
        (if ldFree m curr = 1 ∧ size ≤ ldSize m curr then
          (if candidate ≠ 0 then
            (if ldSize m curr < ldSize m candidate then curr else candidate)
          else curr)
        else candidate)
    else some candidate

/-- The `while (curr)` loop of the worst-fit search. -/
def worstLoop (m : Mem) (size : Nat) : Nat → Nat → Nat → Option Nat
  | 0, _, _ => none
  | fuel + 1, curr, candidate =>
    if curr ≠ 0 then
      worstLoop m size fuel (ldNext m curr)
        (if ldFree m curr = 1 ∧ size ≤ ldSize m curr then
          (if candidate ≠ 0 then
            (if ldSize m candidate < ldSize m curr then curr else candidate)
          else curr)
        else candidate)
    else some candidate

/-- The source's `findFreeBlock (&last, size)` under the strategy `fit`.  The
result is the returned block, the value left in `*last`, and the state (the
next-fit search assigns `nextStart`).  `none` means the fuel ran out. -/
def findFreeBlock (fit : Fit) (fuel : Nat) (s : Heap) (last size : Nat) :
    Option (Nat × Nat × Heap) :=
  match fit with
  | Fit.first =>
    match scanLoop s.mem size fuel s.freeList last with
    | none => none
    | some (curr, last1) => some (curr, last1, s)
  | Fit.best =>
    match bestLoop s.mem size fuel s.freeList 0 with
    | none => none
    | some candidate =>
      -- after the loop `curr == NULL`
      some (if candidate ≠ 0 ∧ (0 : Nat) = 0 then candidate else 0, last, s)
  | Fit.worst =>
    match worstLoop s.mem size fuel s.freeList 0 with
    | none => none
    | some candidate =>
      some (if candidate ≠ 0 ∧ (0 : Nat) = 0 then candidate else 0, last, s)
  | Fit.next =>
    -- `curr = nextStart;` replaces the initial `curr = freeList`
    match scanLoop s.mem size fuel s.nextStart last with
    | none => none
    | some (curr, last1) =>
      some (curr, last1,
        if curr ≠ 0 then { s with nextStart := ldNext s.mem curr } else s)

/-! ## `growHeap` -/

/-- The source's `growHeap (last, size)`.  The returned pointer is `0` for
`NULL`. -/
def growHeap (s : Heap) (last size : Nat) : Outcome Nat :=
  let r0 := sbrk s 0
  let curr := r0.1
  let r1 := sbrk r0.2 ((HDR + size) % WORD)
  let prev := r1.1
  let s1 := r1.2
  -- assert(curr == prev);
  if curr ≠ prev then Outcome.abort s1
  else if curr = WORD - 1 then Outcome.ret 0 s1
  else
    let s2 := if s1.freeList = 0 then { s1 with freeList := curr } else s1
    let m0 := if last ≠ 0 then stNext s2.mem last curr else s2.mem
    let m1 := stSize m0 curr size
    let m2 := stNext m1 curr 0
    let m3 := stFree m2 curr 0
    Outcome.ret curr
      { s2 with mem := m3, max_heap := addToInt s2.max_heap size,
                num_grows := s2.num_grows + 1 }

/-! ## `malloc`, `calloc` and `free` -/

/-- The statements of `malloc` and of `calloc` under "Attempt to split the free
block", which run when `next != NULL && next->size > sizeof (struct _block) + size`. -/
def splitBlock (s : Heap) (next size : Nat) : Heap :=
  let pointer := (BLOCK_DATA next + size) % WORD
  let newBlock := BLOCK_HEADER pointer
  let m1 := stSize s.mem newBlock ((ldSize s.mem next + 2 * WORD - HDR - size) % WORD)
  let m2 := stFree m1 newBlock 1
  let m3 := stNext m2 newBlock (ldNext m2 next)
  let m4 := stNext m3 next newBlock
  let m5 := stSize m4 next size
  { s with mem := m5, num_splits := s.num_splits + 1, num_blocks := s.num_blocks + 1 }

/-- The source's `malloc (size)`; the result `0` is `NULL`. -/
def malloc (fit : Fit) (fuel : Nat) (s : Heap) (size : Nat) : Outcome Nat :=
  -- num_requested += size;
  let s := { s with num_requested := addToInt s.num_requested size }
  -- if (atexit_registered == 0) { atexit_registered = 1; atexit (printStatistics); }
  let s := if s.atexit_registered = 0 then { s with atexit_registered := 1 } else s
  let size := ALIGN4 size
  if size = 0 then Outcome.ret 0 s
  else
    -- struct _block *last = freeList; struct _block *next = findFreeBlock (&last, size);
    match findFreeBlock fit fuel s s.freeList size with
    | none => Outcome.fuelOut
    | some (next, last, s) =>
      let s := if next ≠ 0 then { s with num_reuses := s.num_reuses + 1 } else s
      let s := if next ≠ 0 ∧ (HDR + size) % WORD < ldSize s.mem next
               then splitBlock s next size else s
      -- if (next == NULL) { next = growHeap (last, size); if (next != NULL) num_blocks++; }
      let grown : Outcome Nat :=
        if next = 0 then
          (growHeap s last size).bind fun b s1 =>
            Outcome.ret b (if b ≠ 0 then { s1 with num_blocks := s1.num_blocks + 1 } else s1)
        else Outcome.ret next s
      grown.bind fun next s =>
        if next = 0 then Outcome.ret 0 s
        else
          -- next->free = false; num_mallocs++; return BLOCK_DATA (next);
          Outcome.ret (BLOCK_DATA next)
            { s with mem := stFree s.mem next 0, num_mallocs := s.num_mallocs + 1 }

/-- The source's `calloc (nmemb, size)`; the result `0` is `NULL`. -/
def calloc (fit : Fit) (fuel : Nat) (s : Heap) (nmemb size : Nat) : Outcome Nat :=
  let trueSize := (nmemb * size) % WORD
  -- num_requested += trueSize;
  let s := { s with num_requested := addToInt s.num_requested trueSize }
  let s := if s.atexit_registered = 0 then { s with atexit_registered := 1 } else s
  let trueSize := ALIGN4 trueSize
  if trueSize = 0 then Outcome.ret 0 s
  else
    match findFreeBlock fit fuel s s.freeList trueSize with
    | none => Outcome.fuelOut
    | some (next, last, s) =>
      -- if (next != NULL) { memset (BLOCK_DATA (next), 0, trueSize); num_reuses++; }
      let s := if next ≠ 0 then
                 { s with mem := memset s.mem (BLOCK_DATA next) 0 trueSize,
                          num_reuses := s.num_reuses + 1 }
               else s
      let s := if next ≠ 0 ∧ (HDR + trueSize) % WORD < ldSize s.mem next
               then splitBlock s next trueSize else s
      -- if (next == NULL) { next = growHeap (last, trueSize);
      --   if (next != NULL) { memset (BLOCK_DATA (next), 0, trueSize); num_blocks++; } }
      let grown : Outcome Nat :=
        if next = 0 then
          (growHeap s last trueSize).bind fun b s1 =>
            Outcome.ret b
              (if b ≠ 0 then
                { s1 with mem := memset s1.mem (BLOCK_DATA b) 0 trueSize,
                          num_blocks := s1.num_blocks + 1 }
              else s1)
        else Outcome.ret next s
      grown.bind fun next s =>
        if next = 0 then Outcome.ret 0 s
        else
          -- next->free = false; return BLOCK_DATA (next);
          Outcome.ret (BLOCK_DATA next) { s with mem := stFree s.mem next 0 }

/-- The coalescing `while` loop of `free`, started with `tempOne`. -/
def coalesceLoop : Nat → Heap → Nat → Option Heap
  | 0, _, _ => none
  | fuel + 1, s, tempOne =>
    if tempOne = 0 then some s
    else if ldNext s.mem tempOne ≠ 0 ∧ ldFree s.mem tempOne = 1 then
      if ldFree s.mem (ldNext s.mem tempOne) = 1 then
        let tempTwo := ldNext s.mem tempOne
        let m1 := stNext s.mem tempOne (ldNext s.mem tempTwo)
        let m2 := stSize m1 tempOne ((ldSize m1 tempOne + ldSize m1 tempTwo) % WORD)
        coalesceLoop fuel
          { s with mem := m2, num_coalesces := s.num_coalesces + 1,
                   num_blocks := s.num_blocks - 1 } tempOne
      else coalesceLoop fuel s (ldNext s.mem tempOne)
    else coalesceLoop fuel s (ldNext s.mem tempOne)

/-- The source's `free (ptr)`. -/
def free (fuel : Nat) (s : Heap) (ptr : Nat) : Outcome Unit :=
  if ptr = 0 then Outcome.ret () s
  else
    let curr := BLOCK_HEADER ptr
    -- assert(curr->free == 0);
    if ldFree s.mem curr ≠ 0 then Outcome.abort s
    else
      let s1 := { s with mem := stFree s.mem curr 1, num_frees := s.num_frees + 1 }
      match coalesceLoop fuel s1 s1.freeList with
      | none => Outcome.fuelOut
      | some s2 => Outcome.ret () s2

/-! ## Chains of blocks -/

/-- A block of the chain as the allocator sees it: the address of its header
and the values of the fields `size` and `free`. -/
structure Blk where
  /-- Address of the header. -/
  addr : Nat
  /-- Value of the field `size`. -/
  size : Nat
  /-- Value of the field `free`. -/
  free : Bool
  deriving DecidableEq, Repr

/-- The byte that stores a `bool`. -/
def boolByte (b : Bool) : Nat := if b then 1 else 0

/-- `Chain m p bs`: in memory `m`, following `next` from the pointer `p` visits
the headers `bs`, in this order, and then reaches `NULL`. -/
def Chain (m : Mem) : Nat → List Blk → Prop
  | p, [] => p = 0
  | p, b :: bs =>
    p = b.addr ∧ p ≠ 0 ∧ ldSize m p = b.size ∧ ldFree m p = boolByte b.free ∧
      Chain m (ldNext m p) bs

/-- The headers of the list occupy pairwise disjoint byte ranges. -/
def Sep (bs : List Blk) : Prop :=
  bs.Pairwise (fun a b => a.addr + HDR ≤ b.addr ∨ b.addr + HDR ≤ a.addr)

/-- No block of the list is free while its successor in the list is free. -/
def NoAdjFree (bs : List Blk) : Prop :=
  bs.Chain' (fun a b => ¬ (a.free = true ∧ b.free = true))

/-- The chain after the assignment `curr->free = true` to the header at `a`. -/
def markFree (a : Nat) (bs : List Blk) : List Blk :=
  bs.map (fun b => if b.addr = a then { b with free := true } else b)

/-! ## Call sequences -/

/-- The headers met from `p` along `next`, at most `fuel` of them, each as
address, field `size` and byte of the field `free`. -/
def walk (m : Mem) : Nat → Nat → List (Nat × Nat × Nat)
  | 0, _ => []
  | fuel + 1, p =>
    if p = 0 then [] else (p, ldSize m p, ldFree m p) :: walk m fuel (ldNext m p)

/-- Start of the scenarios below: an empty heap in zeroed memory, with the
program break at 4096 and room up to 65536. -/
def startHeap : Heap := initHeap (fun _ => 0) 4096 65536

/-- Two blocks of 40 bytes are allocated, the second is freed, then the first.
The value is the chain before and after the last call. -/
def coalesceTwo : Outcome (List (Nat × Nat × Nat) × List (Nat × Nat × Nat)) :=
  (malloc Fit.first 8 startHeap 40).bind fun p1 s1 =>
  (malloc Fit.first 8 s1 40).bind fun p2 s2 =>
  (free 8 s2 p2).bind fun _ s3 =>
  (free 8 s3 p1).bind fun _ s4 =>
  Outcome.ret (walk s3.mem 8 s3.freeList, walk s4.mem 8 s4.freeList) s4

/-- A block of 100 bytes is allocated and freed, then 40 bytes are requested.
The value is the address returned by the last call and the chain after it. -/
def splitLarge : Outcome (Nat × List (Nat × Nat × Nat)) :=
  (malloc Fit.first 8 startHeap 100).bind fun p1 s1 =>
  (free 8 s1 p1).bind fun _ s2 =>
  (malloc Fit.first 8 s2 40).bind fun p3 s3 =>
  Outcome.ret (p3, walk s3.mem 8 s3.freeList) s3

/-- A block of 40 bytes is allocated and freed, then 4 bytes are requested.
The value is the address returned by the last call and the chain after it. -/
def splitSmall : Outcome (Nat × List (Nat × Nat × Nat)) :=
  (malloc Fit.first 8 startHeap 40).bind fun p1 s1 =>
  (free 8 s1 p1).bind fun _ s2 =>
  (malloc Fit.first 8 s2 4).bind fun p3 s3 =>
  Outcome.ret (p3, walk s3.mem 8 s3.freeList) s3

/-- Three requests of 40 bytes under the strategy `fit`.  The value is the
three addresses returned and the chain after the last call. -/
def growThree (fit : Fit) : Outcome ((Nat × Nat × Nat) × List (Nat × Nat × Nat)) :=
  (malloc fit 8 startHeap 40).bind fun p1 s1 =>
  (malloc fit 8 s1 40).bind fun p2 s2 =>
  (malloc fit 8 s2 40).bind fun p3 s3 =>
  Outcome.ret ((p1, p2, p3), walk s3.mem 8 s3.freeList) s3

/-- First fit: `malloc (40)`, `malloc (40)`, `free` of the first address,
`malloc (4)`, `malloc (100)`.  The value is the second and the last address
returned, each with the field `size` of its header in the final state. -/
def overlapRun : Outcome ((Nat × Nat) × (Nat × Nat)) :=
  (malloc Fit.first 8 startHeap 40).bind fun p1 s1 =>
  (malloc Fit.first 8 s1 40).bind fun p2 s2 =>
  (free 8 s2 p1).bind fun _ s3 =>
  (malloc Fit.first 8 s3 4).bind fun _ s4 =>
  (malloc Fit.first 8 s4 100).bind fun p5 s5 =>
  Outcome.ret ((p2, ldSize s5.mem (BLOCK_HEADER p2)), (p5, ldSize s5.mem (BLOCK_HEADER p5))) s5

/-- A block of 100 bytes is allocated and freed, then `calloc (1, 40)`.  The
value is the address `p` returned by `calloc` and the bytes at `p + 16` and
`p + 32` when it returns. -/
def zeroRun : Outcome (Nat × Nat × Nat) :=
  (malloc Fit.first 8 startHeap 100).bind fun p1 s1 =>
  (free 8 s1 p1).bind fun _ s2 =>
  (calloc Fit.first 8 s2 1 40).bind fun p s3 =>
  Outcome.ret (p, load8 s3.mem (p + 16), load8 s3.mem (p + 32)) s3

/-- The state after a block of 40 bytes was allocated and freed under the
strategy `fit`: one free block of size 40 at 4096. -/
def oneFreeBlock (fit : Fit) : Heap :=
  ((malloc fit 8 startHeap 40).bind fun p1 s1 => free 8 s1 p1).heapOr startHeap

/-- First fit: `malloc (100)`, `free`, `malloc (8)`, `malloc (40)`.  The value
is the two addresses that are live afterwards. -/
def liveTwo : Outcome (Nat × Nat) :=
  (malloc Fit.first 8 startHeap 100).bind fun p1 s1 =>
  (free 8 s1 p1).bind fun _ s2 =>
  (malloc Fit.first 8 s2 8).bind fun p3 s3 =>
  (malloc Fit.first 8 s3 40).bind fun p4 s4 =>
  Outcome.ret (p3, p4) s4

/-- Three blocks of 40 bytes A, B, C are allocated; A is freed, then B. -/
def freedTwoOfThree : Outcome Nat :=
  (malloc Fit.first 8 startHeap 40).bind fun p1 s1 =>
  (malloc Fit.first 8 s1 40).bind fun p2 s2 =>
  (malloc Fit.first 8 s2 40).bind fun p3 s3 =>
  (free 8 s3 p1).bind fun _ s4 =>
  (free 8 s4 p2).bind fun _ s5 =>
  Outcome.ret p3 s5

/-- The scenario `freedTwoOfThree` followed by the deallocation of C.  The
value is the chain after each of the three deallocations. -/
def freedThree : Outcome (List (Nat × Nat × Nat) × List (Nat × Nat × Nat)
    × List (Nat × Nat × Nat)) :=
  (malloc Fit.first 8 startHeap 40).bind fun p1 s1 =>
  (malloc Fit.first 8 s1 40).bind fun p2 s2 =>
  (malloc Fit.first 8 s2 40).bind fun p3 s3 =>
  (free 8 s3 p1).bind fun _ s4 =>
  (free 8 s4 p2).bind fun _ s5 =>
  (free 8 s5 p3).bind fun _ s6 =>
  Outcome.ret (walk s4.mem 8 s4.freeList, walk s5.mem 8 s5.freeList,
    walk s6.mem 8 s6.freeList) s6

/-! ## Statements about the search and about `malloc` -/

/-- The first statements of `malloc` and `calloc`: the request is added to
`num_requested` and the exit hook is registered once. -/
def countRequest (s : Heap) (size : Nat) : Heap :=
  let s := { s with num_requested := addToInt s.num_requested size }
  if s.atexit_registered = 0 then { s with atexit_registered := 1 } else s

/-- The statements of `malloc` that follow the call of `findFreeBlock`, as
`malloc` has them, with `next` and `last` as the search left them. -/
def mallocTail (s : Heap) (next last size : Nat) : Outcome Nat :=
  let s := if next ≠ 0 then { s with num_reuses := s.num_reuses + 1 } else s
  let s := if next ≠ 0 ∧ (HDR + size) % WORD < ldSize s.mem next
           then splitBlock s next size else s
  let grown : Outcome Nat :=
    if next = 0 then
      (growHeap s last size).bind fun b s1 =>
        Outcome.ret b (if b ≠ 0 then { s1 with num_blocks := s1.num_blocks + 1 } else s1)
    else Outcome.ret next s
  grown.bind fun next s =>
    if next = 0 then Outcome.ret 0 s
    else
      Outcome.ret (BLOCK_DATA next)
        { s with mem := stFree s.mem next 0, num_mallocs := s.num_mallocs + 1 }

/-- The statements of `calloc` that follow the call of `findFreeBlock`, as
`calloc` has them, with `next` and `last` as the search left them. -/
def callocTail (s : Heap) (next last trueSize : Nat) : Outcome Nat :=
  let s := if next ≠ 0 then
             { s with mem := memset s.mem (BLOCK_DATA next) 0 trueSize,
                      num_reuses := s.num_reuses + 1 }
           else s
  let s := if next ≠ 0 ∧ (HDR + trueSize) % WORD < ldSize s.mem next
           then splitBlock s next trueSize else s
  let grown : Outcome Nat :=
    if next = 0 then
      (growHeap s last trueSize).bind fun b s1 =>
        Outcome.ret b
          (if b ≠ 0 then
            { s1 with mem := memset s1.mem (BLOCK_DATA b) 0 trueSize,
                      num_blocks := s1.num_blocks + 1 }
          else s1)
    else Outcome.ret next s
  grown.bind fun next s =>
    if next = 0 then Outcome.ret 0 s
    else Outcome.ret (BLOCK_DATA next) { s with mem := stFree s.mem next 0 }

/-- The state in which `free` enters its loop when C is freed last of three
blocks A, B, C of 40 bytes: a free block of size 80 and the block C, marked
free. -/
def loopEntry : Heap :=
  { freedTwoOfThree.heapOr startHeap with
    mem := stFree (freedTwoOfThree.heapOr startHeap).mem 4224 1 }

/-! ## Scenarios for the search, the counters and the sizes -/

/-- A block of 40 bytes is allocated and freed, then 20 bytes are requested.
The value is the address returned by the last call and the field `size` of
the header in front of it. -/
def reuseUnsplit : Outcome (Nat × Nat) :=
  (malloc Fit.first 8 startHeap 40).bind fun p1 s1 =>
  (free 8 s1 p1).bind fun _ s2 =>
  (malloc Fit.first 8 s2 20).bind fun p3 s3 =>
  Outcome.ret (p3, ldSize s3.mem (BLOCK_HEADER p3)) s3

/-- The state after `malloc (20)` on one free block of size 40. -/
def afterReuse : Heap :=
  (malloc Fit.first 8 (oneFreeBlock Fit.first) 20).heapOr startHeap

/-- `calloc (1, 40)` on the empty heap, then `malloc (40)`.  The value is the
address returned by `calloc` and `num_mallocs` after each of the two calls. -/
def callocOnce : Outcome (Nat × Int × Int) :=
  (calloc Fit.first 8 startHeap 1 40).bind fun p s =>
  (malloc Fit.first 8 s 40).bind fun _ s1 =>
  Outcome.ret (p, s.num_mallocs, s1.num_mallocs) s1

/-- First fit: `malloc (40)`, `malloc (40)`, `free` of the first address,
`malloc (4)`.  The value is the chain, `num_blocks` and `num_grows` at the
end. -/
def lostBlock : Outcome (List (Nat × Nat × Nat) × Int × Int) :=
  (malloc Fit.first 8 startHeap 40).bind fun p1 s1 =>
  (malloc Fit.first 8 s1 40).bind fun _ s2 =>
  (free 8 s2 p1).bind fun _ s3 =>
  (malloc Fit.first 8 s3 4).bind fun _ s4 =>
  Outcome.ret (walk s4.mem 8 s4.freeList, s4.num_blocks, s4.num_grows) s4

/-- A block of 100 bytes is allocated and freed, then 16 bytes are requested.
The value is the address returned by the last call and the chain after it. -/
def zeroSizeBlock : Outcome (Nat × List (Nat × Nat × Nat)) :=
  (malloc Fit.first 8 startHeap 100).bind fun p1 s1 =>
  (free 8 s1 p1).bind fun _ s2 =>
  (malloc Fit.first 8 s2 16).bind fun p3 s3 =>
  Outcome.ret (p3, walk s3.mem 8 s3.freeList) s3

/-! ## Scenarios with headers that share bytes -/

/-- First fit: `malloc (100)`, `malloc (4)`, `free` of the first address,
`malloc (16)`, `free` of the second address, `malloc (16)`.  The value is the
second and the fourth address returned, the chain before and after the last
`free`, and the address returned by the last `malloc`. -/
def adjacentFreeLeft : Outcome ((Nat × Nat) × List (Nat × Nat × Nat) × List (Nat × Nat × Nat)
    × Nat) :=
  (malloc Fit.first 8 startHeap 100).bind fun p1 s1 =>
  (malloc Fit.first 8 s1 4).bind fun p2 s2 =>
  (free 8 s2 p1).bind fun _ s3 =>
  (malloc Fit.first 8 s3 16).bind fun p4 s4 =>
  (free 8 s4 p2).bind fun _ s5 =>
  (malloc Fit.first 8 s5 16).bind fun p6 s6 =>
  Outcome.ret ((p2, p4), walk s4.mem 8 s4.freeList, walk s5.mem 8 s5.freeList, p6) s6

/-- A store of 8 bytes by the program that called `malloc`. -/
def clientStore64 (s : Heap) (a v : Nat) : Heap := { s with mem := store64 s.mem a v }

/-- A store of one byte by the program that called `malloc`. -/
def clientStore8 (s : Heap) (a v : Nat) : Heap := { s with mem := store8 s.mem a v }

/-- First fit: `malloc (1000)`, `free`, `malloc (40)`, `malloc (800)`.  The
value is the two addresses that are live afterwards. -/
def twoLive : Outcome (Nat × Nat) :=
  (malloc Fit.first 8 startHeap 1000).bind fun p0 s0 =>
  (free 8 s0 p0).bind fun _ s1 =>
  (malloc Fit.first 8 s1 40).bind fun p1 s2 =>
  (malloc Fit.first 8 s2 800).bind fun p2 s3 =>
  Outcome.ret (p1, p2) s3

/-- The state after `twoLive` and seven stores of the program into the two
regions it holds: 8 bytes at 4144 in the first one, and 8 bytes at 4360, 4368,
4608 and 4616 and one byte at 4376 and at 4624 in the second one. -/
def beforeLastFree : Heap :=
  clientStore8 (clientStore64 (clientStore64 (clientStore8 (clientStore64 (clientStore64
    (clientStore64 (twoLive.heapOr startHeap) 4144 4360) 4360 0) 4368 4608) 4376 1)
    4608 4360) 4616 4352) 4624 1

/-- The state in which `free (4120)` enters its loop from `beforeLastFree`. -/
def loopStart : Heap :=
  { beforeLastFree with mem := stFree beforeLastFree.mem (BLOCK_HEADER 4120) 1,
                        num_frees := beforeLastFree.num_frees + 1 }

/-- The state after one absorption by the block `tempOne`: the body of the
innermost `if` of the loop of `free`. -/
def absorb (s : Heap) (tempOne : Nat) : Heap :=
  let tempTwo := ldNext s.mem tempOne
  let m1 := stNext s.mem tempOne (ldNext s.mem tempTwo)
  let m2 := stSize m1 tempOne ((ldSize m1 tempOne + ldSize m1 tempTwo) % WORD)
  { s with mem := m2, num_coalesces := s.num_coalesces + 1,
           num_blocks := s.num_blocks - 1 }

/-! # Theorems -/

/-! ## Reading and writing bytes -/

theorem load8_lt (m : Mem) (a : Nat) : load8 m a < 256 := by
  unfold load8; omega

theorem load64_lt (m : Mem) (a : Nat) : load64 m a < WORD := by
  have h0 := load8_lt m a
  have h1 := load8_lt m (a + 1)
  have h2 := load8_lt m (a + 2)
  have h3 := load8_lt m (a + 3)
  have h4 := load8_lt m (a + 4)
  have h5 := load8_lt m (a + 5)
  have h6 := load8_lt m (a + 6)
  have h7 := load8_lt m (a + 7)
  unfold load64 WORD
  omega

theorem load64_congr {m m' : Mem} {a : Nat}
    (h : ∀ x, a ≤ x → x < a + 8 → m' x = m x) : load64 m' a = load64 m a := by
  unfold load64 load8
  rw [h a (by omega) (by omega), h (a + 1) (by omega) (by omega),
    h (a + 2) (by omega) (by omega), h (a + 3) (by omega) (by omega),
    h (a + 4) (by omega) (by omega), h (a + 5) (by omega) (by omega),
    h (a + 6) (by omega) (by omega), h (a + 7) (by omega) (by omega)]

theorem store64_out (m : Mem) (a v x : Nat) (h : x < a ∨ a + 8 ≤ x) :
    store64 m a v x = m x := by
  unfold store64
  rw [if_neg]
  omega

theorem store64_in (m : Mem) (a v i : Nat) (h : i < 8) :
    store64 m a v (a + i) = v / 256 ^ i % 256 := by
  unfold store64
  rw [if_pos (by omega)]
  congr 3
  omega

theorem bytes_sum (v : Nat) :
    v / 256 ^ 0 % 256 % 256 + 256 * (v / 256 ^ 1 % 256 % 256 + 256 * (v / 256 ^ 2 % 256 % 256
      + 256 * (v / 256 ^ 3 % 256 % 256 + 256 * (v / 256 ^ 4 % 256 % 256
      + 256 * (v / 256 ^ 5 % 256 % 256 + 256 * (v / 256 ^ 6 % 256 % 256
      + 256 * (v / 256 ^ 7 % 256 % 256))))))) = v % 2 ^ 64 := by
  have e : (2 : Nat) ^ 64 = 256 * (256 * (256 * (256 * (256 * (256 * (256 * 256)))))) := by
    norm_num
  rw [e]
  simp only [Nat.mod_mul, Nat.mod_mod, pow_succ, pow_zero, one_mul, Nat.div_one,
    ← Nat.div_div_eq_div_mul]

theorem load64_store64_same (m : Mem) (a v : Nat) :
    load64 (store64 m a v) a = v % WORD := by
  have e0 := store64_in m a v 0 (by omega)
  have e1 := store64_in m a v 1 (by omega)
  have e2 := store64_in m a v 2 (by omega)
  have e3 := store64_in m a v 3 (by omega)
  have e4 := store64_in m a v 4 (by omega)
  have e5 := store64_in m a v 5 (by omega)
  have e6 := store64_in m a v 6 (by omega)
  have e7 := store64_in m a v 7 (by omega)
  rw [Nat.add_zero] at e0
  unfold load64 load8 WORD
  rw [e0, e1, e2, e3, e4, e5, e6, e7]
  exact bytes_sum v

/-! ## Header fields under writes -/

theorem ldSize_lt (m : Mem) (b : Nat) : ldSize m b < WORD := load64_lt m _

theorem ldNext_lt (m : Mem) (b : Nat) : ldNext m b < WORD := load64_lt m _

/-- The three fields of the header at `b` depend only on the bytes `b .. b + 16`. -/
theorem fields_congr {m m' : Mem} {b : Nat}
    (h : ∀ x, b ≤ x → x < b + 17 → m' x = m x) :
    ldSize m' b = ldSize m b ∧ ldNext m' b = ldNext m b ∧ ldFree m' b = ldFree m b := by
  refine ⟨?_, ?_, ?_⟩
  · exact load64_congr (fun x h1 h2 => h x (by unfold OFF_SIZE at h1; omega)
      (by unfold OFF_SIZE at h2; omega))
  · exact load64_congr (fun x h1 h2 => h x (by unfold OFF_NEXT at h1; omega)
      (by unfold OFF_NEXT at h2; omega))
  · unfold ldFree load8 OFF_FREE
    rw [h (b + 16) (by omega) (by omega)]

theorem stSize_out (m : Mem) (b v x : Nat) (h : x < b ∨ b + 8 ≤ x) :
    stSize m b v x = m x :=
  store64_out m _ v x (by unfold OFF_SIZE; omega)

theorem stNext_out (m : Mem) (b v x : Nat) (h : x < b + 8 ∨ b + 16 ≤ x) :
    stNext m b v x = m x :=
  store64_out m _ v x (by unfold OFF_NEXT; omega)

theorem stFree_out (m : Mem) (b v x : Nat) (h : x ≠ b + 16) :
    stFree m b v x = m x := by
  unfold stFree store8 OFF_FREE
  rw [if_neg h]

theorem ldSize_stSize (m : Mem) (b v : Nat) : ldSize (stSize m b v) b = v % WORD :=
  load64_store64_same m _ v

theorem ldNext_stNext (m : Mem) (b v : Nat) : ldNext (stNext m b v) b = v % WORD :=
  load64_store64_same m _ v

theorem ldFree_stFree (m : Mem) (b v : Nat) : ldFree (stFree m b v) b = v % 256 := by
  unfold ldFree stFree load8 store8
  simp

theorem Chain.congr {m m' : Mem} : ∀ {bs : List Blk} {p : Nat}, Chain m p bs →
    (∀ b ∈ bs, ∀ x, b.addr ≤ x → x < b.addr + 17 → m' x = m x) → Chain m' p bs
  | [], _, h, _ => h
  | b :: bs, p, h, hm => by
    obtain ⟨h1, h2, h3, h4, h5⟩ := h
    have hf := @fields_congr m m' p
      (fun x hx1 hx2 => hm b (List.mem_cons_self _ _) x (h1 ▸ hx1) (h1 ▸ hx2))
    refine ⟨h1, h2, hf.1.trans h3, hf.2.2.trans h4, ?_⟩
    rw [hf.2.1]
    exact Chain.congr h5 (fun b' hb' => hm b' (List.mem_cons_of_mem _ hb'))

/-- The two assignments of one absorption, `tempOne->next = v` followed by
`tempOne->size = w`, change the bytes `a .. a + 15` only and store both values. -/
theorem absorb_mem (m : Mem) (a v w : Nat) :
    (∀ x, x < a ∨ a + 16 ≤ x → stSize (stNext m a v) a w x = m x) ∧
    ldNext (stSize (stNext m a v) a w) a = v % WORD ∧
    ldSize (stSize (stNext m a v) a w) a = w % WORD := by
  refine ⟨fun x hx => ?_, ?_, ldSize_stSize _ _ _⟩
  · rw [stSize_out _ _ _ _ (by omega), stNext_out _ _ _ _ (by omega)]
  · rw [← ldNext_stNext m a v]
    exact load64_congr (fun x h1 h2 => stSize_out _ _ _ _ (by unfold OFF_NEXT at h1; omega))

/-- One pass of the loop that does not absorb: both `else` paths advance. -/
theorem coalesceLoop_advance (fuel : Nat) (s : Heap) (t : Nat) (ht : t ≠ 0)
    (h : ¬ (ldNext s.mem t ≠ 0 ∧ ldFree s.mem t = 1 ∧ ldFree s.mem (ldNext s.mem t) = 1)) :
    coalesceLoop (fuel + 1) s t = coalesceLoop fuel s (ldNext s.mem t) := by
  rw [coalesceLoop, if_neg ht]
  by_cases h1 : ldNext s.mem t ≠ 0 ∧ ldFree s.mem t = 1
  · rw [if_pos h1, if_neg (fun h2 => h ⟨h1.1, h1.2, h2⟩)]
  · rw [if_neg h1]

theorem coalesceLoop_absorb (fuel : Nat) (s : Heap) (t : Nat) (ht : t ≠ 0)
    (h : ldNext s.mem t ≠ 0 ∧ ldFree s.mem t = 1 ∧ ldFree s.mem (ldNext s.mem t) = 1) :
    coalesceLoop (fuel + 1) s t =
      coalesceLoop fuel
        { s with
          mem := stSize (stNext s.mem t (ldNext s.mem (ldNext s.mem t))) t
            ((ldSize (stNext s.mem t (ldNext s.mem (ldNext s.mem t))) t
              + ldSize (stNext s.mem t (ldNext s.mem (ldNext s.mem t))) (ldNext s.mem t)) % WORD),
          num_coalesces := s.num_coalesces + 1,
          num_blocks := s.num_blocks - 1 } t := by
  rw [coalesceLoop, if_neg ht, if_pos ⟨h.1, h.2.1⟩, if_pos h.2.2]

/-! ## The coalescing loop -/

theorem ldSize_congr {m m' : Mem} {b : Nat}
    (h : ∀ x, b ≤ x → x < b + 8 → m' x = m x) : ldSize m' b = ldSize m b :=
  load64_congr (fun x h1 h2 => h x (by unfold OFF_SIZE at h1; omega)
    (by unfold OFF_SIZE at h2; omega))

theorem ldNext_congr {m m' : Mem} {b : Nat}
    (h : ∀ x, b + 8 ≤ x → x < b + 16 → m' x = m x) : ldNext m' b = ldNext m b :=
  load64_congr (fun x h1 h2 => h x (by unfold OFF_NEXT at h1; omega)
    (by unfold OFF_NEXT at h2; omega))

theorem ldFree_congr {m m' : Mem} {b : Nat}
    (h : m' (b + 16) = m (b + 16)) : ldFree m' b = ldFree m b := by
  unfold ldFree load8 OFF_FREE
  rw [h]

/-- One absorption on a chain with disjoint headers: the first block takes the
sum of the two sizes, modulo `2 ^ 64`, and the successor of the second block. -/
theorem absorb_chain (m : Mem) (t : Nat) (a b : Blk) (rest : List Blk)
    (hch : Chain m t (a :: b :: rest)) (hsep : Sep (a :: b :: rest)) :
    Chain
      (stSize (stNext m t (ldNext m (ldNext m t))) t
        ((ldSize (stNext m t (ldNext m (ldNext m t))) t
          + ldSize (stNext m t (ldNext m (ldNext m t))) (ldNext m t)) % WORD)) t
      (⟨a.addr, (a.size + b.size) % WORD, a.free⟩ :: rest) ∧
    ∀ x, x < t ∨ t + 16 ≤ x →
      stSize (stNext m t (ldNext m (ldNext m t))) t
        ((ldSize (stNext m t (ldNext m (ldNext m t))) t
          + ldSize (stNext m t (ldNext m (ldNext m t))) (ldNext m t)) % WORD) x = m x := by
  obtain ⟨hta, ht0, hsz, hfr, htb, _, hszb, _, hnextb⟩ := hch
  have hdisj := (List.pairwise_cons.1 hsep).1
  have hab := hdisj b (List.mem_cons_self _ _)
  unfold HDR at hab hdisj
  obtain ⟨hout, hnx, hsz2⟩ := absorb_mem m t (ldNext m (ldNext m t))
    ((ldSize (stNext m t (ldNext m (ldNext m t))) t
      + ldSize (stNext m t (ldNext m (ldNext m t))) (ldNext m t)) % WORD)
  refine ⟨⟨hta, ht0, ?_, ?_, ?_⟩, hout⟩
  · have e1 : ldSize (stNext m t (ldNext m (ldNext m t))) t = a.size := by
      rw [← hsz]
      exact ldSize_congr (fun x _ h2 => stNext_out _ _ _ _ (Or.inl (by omega)))
    have e2 : ldSize (stNext m t (ldNext m (ldNext m t))) (ldNext m t) = b.size := by
      rw [← hszb]
      exact ldSize_congr (fun x h1 h2 => stNext_out _ _ _ _ (by omega))
    rw [hsz2, Nat.mod_mod, e1, e2]
  · rw [← hfr]
    exact ldFree_congr (hout _ (by omega))
  · rw [hnx, Nat.mod_eq_of_lt (ldNext_lt _ _)]
    refine Chain.congr hnextb (fun c hc x h1 h2 => hout x ?_)
    have := hdisj c (List.mem_cons_of_mem _ hc)
    omega

theorem coalesceLoop_spec : ∀ (n : Nat) (bs : List Blk) (s : Heap) (t fuel : Nat),
    bs.length = n → Chain s.mem t bs → Sep bs → bs.length < fuel →
    ∃ s' bs', coalesceLoop fuel s t = some s' ∧ Chain s'.mem t bs' ∧ NoAdjFree bs' ∧
      bs'.head?.map Blk.free = bs.head?.map Blk.free ∧
      (∀ x, (∀ b ∈ bs, x < b.addr ∨ b.addr + 16 ≤ x) → s'.mem x = s.mem x) ∧
      s'.freeList = s.freeList ∧ bs'.length ≤ bs.length ∧
      s'.num_coalesces = s.num_coalesces + ((bs.length : Int) - bs'.length) ∧
      s'.num_blocks = s.num_blocks - ((bs.length : Int) - bs'.length) := by
  intro n
  induction n using Nat.strong_induction_on with
  | _ n ih =>
    intro bs s t fuel hlen hch hsep hfuel
    cases fuel with
    | zero => omega
    | succ f =>
      cases bs with
      | nil =>
        have ht : t = 0 := hch
        subst ht
        exact ⟨s, [], by simp [coalesceLoop], hch, List.chain'_nil, rfl,
          fun _ _ => rfl, rfl, le_refl _, by simp, by simp⟩
      | cons a rest =>
        have hch0 := hch
        obtain ⟨hta, ht0, hsz, hfr, hnext⟩ := hch
        have hsep2 : Sep rest := (List.pairwise_cons.1 hsep).2
        have hdisj : ∀ b ∈ rest, a.addr + HDR ≤ b.addr ∨ b.addr + HDR ≤ a.addr :=
          (List.pairwise_cons.1 hsep).1
        by_cases hm : ldNext s.mem t ≠ 0 ∧ ldFree s.mem t = 1 ∧
            ldFree s.mem (ldNext s.mem t) = 1
        · -- the successor is absorbed
          cases rest with
          | nil => exact absurd hnext hm.1
          | cons b rest2 =>
            obtain ⟨hch2, hout⟩ := absorb_chain s.mem t a b rest2 hch0 hsep
            have hsep3 : Sep (⟨a.addr, (a.size + b.size) % WORD, a.free⟩ :: rest2) := by
              have h1 := List.pairwise_cons.1 hsep
              have h2 := List.pairwise_cons.1 h1.2
              exact List.pairwise_cons.2
                ⟨fun c hc => h1.1 c (List.mem_cons_of_mem _ hc), h2.2⟩
            rw [coalesceLoop_absorb f s t ht0 hm]
            generalize stSize (stNext s.mem t (ldNext s.mem (ldNext s.mem t))) t
              ((ldSize (stNext s.mem t (ldNext s.mem (ldNext s.mem t))) t
                + ldSize (stNext s.mem t (ldNext s.mem (ldNext s.mem t))) (ldNext s.mem t))
                  % WORD) = M at hch2 hout ⊢
            have hlen2 : rest2.length + 1 < n := by
              simp only [List.length_cons] at hlen
              omega
            have hfuel2 : (Blk.mk a.addr ((a.size + b.size) % WORD) a.free :: rest2).length
                < f := by
              simp only [List.length_cons] at hfuel ⊢
              omega
            obtain ⟨s', bs', h1, h2, h3, h4, h5, h6, h7, h8, h9⟩ :=
              ih (rest2.length + 1) hlen2
                (Blk.mk a.addr ((a.size + b.size) % WORD) a.free :: rest2)
                { s with mem := M, num_coalesces := s.num_coalesces + 1,
                         num_blocks := s.num_blocks - 1 }
                t f rfl hch2 hsep3 hfuel2
            refine ⟨s', bs', h1, h2, h3, h4, fun x hx => ?_, h6, ?_, ?_, ?_⟩
            · rw [h5 x (fun c hc => ?_)]
              · exact hout x (by
                  have := hx a (List.mem_cons_self _ _)
                  omega)
              · rcases List.mem_cons.1 hc with rfl | hc
                · exact hx a (List.mem_cons_self _ _)
                · exact hx c (List.mem_cons_of_mem _ (List.mem_cons_of_mem _ hc))
            · simp only [List.length_cons] at h7 ⊢
              omega
            · rw [h8]
              simp only [List.length_cons]
              push_cast
              ring
            · rw [h9]
              simp only [List.length_cons]
              push_cast
              ring
        · -- the loop advances to the successor
          rw [coalesceLoop_advance f s t ht0 hm]
          have hlen2 : rest.length < n := by
            simp only [List.length_cons] at hlen
            omega
          have hfuel2 : rest.length < f := by
            simp only [List.length_cons] at hfuel
            omega
          obtain ⟨s', bs', h1, h2, h3, h4, h5, h6, h7, h8, h9⟩ :=
            ih rest.length hlen2 rest s (ldNext s.mem t) f rfl hnext hsep2 hfuel2
          have hkeep : ∀ x, t ≤ x → x < t + 17 → s'.mem x = s.mem x := by
            intro x hx1 hx2
            refine h5 x (fun c hc => ?_)
            have := hdisj c hc
            unfold HDR at this
            omega
          obtain ⟨f1, f2, f3⟩ := fields_congr hkeep
          refine ⟨s', a :: bs', h1, ⟨hta, ht0, f1.trans hsz, f3.trans hfr, f2 ▸ h2⟩, ?_, rfl,
            fun x hx => h5 x (fun c hc => hx c (List.mem_cons_of_mem _ hc)), h6, ?_, ?_, ?_⟩
          · refine List.chain'_cons'.2 ⟨fun y hy hboth => hm ?_, h3⟩
            cases rest with
            | nil =>
              cases bs' with
              | nil => simp at hy
              | cons _ _ => simp at h4
            | cons b rest2 =>
              cases bs' with
              | nil => simp at hy
              | cons b' _ =>
                simp at hy h4
                subst hy
                obtain ⟨htb, htb0, _, hfrb, _⟩ := hnext
                refine ⟨htb0, ?_, ?_⟩
                · rw [hfr, hboth.1]; rfl
                · rw [hfrb, ← h4, hboth.2]; rfl
          · simp only [List.length_cons]
            omega
          · rw [h8]
            simp only [List.length_cons]
            push_cast
            ring
          · rw [h9]
            simp only [List.length_cons]
            push_cast
            ring

/-! ## `free` on a chain with disjoint headers -/

theorem BLOCK_HEADER_DATA (a : Nat) (h : a + HDR < WORD) :
    BLOCK_DATA a ≠ 0 ∧ BLOCK_HEADER (BLOCK_DATA a) = a := by
  unfold BLOCK_DATA BLOCK_HEADER
  unfold HDR WORD at *
  omega

theorem markFree_cons (a : Nat) (b : Blk) (bs : List Blk) :
    markFree a (b :: bs) =
      (if b.addr = a then { b with free := true } else b) :: markFree a bs := rfl

theorem chain_markFree (m : Mem) (a : Nat) (bs : List Blk) : ∀ (p : Nat), Chain m p bs →
    (∀ b ∈ bs, b.addr = a ∨ a + HDR ≤ b.addr ∨ b.addr + HDR ≤ a) →
    Chain (stFree m a 1) p (markFree a bs) := by
  induction bs with
  | nil => exact fun p h _ => h
  | cons b bs ih =>
    intro p h hd
    obtain ⟨h1, h2, h3, h4, h5⟩ := h
    have hb := hd b (List.mem_cons_self _ _)
    unfold HDR at hb
    have hs : ldSize (stFree m a 1) p = ldSize m p :=
      ldSize_congr (fun x hx1 hx2 => stFree_out _ _ _ _ (by omega))
    have hn : ldNext (stFree m a 1) p = ldNext m p :=
      ldNext_congr (fun x hx1 hx2 => stFree_out _ _ _ _ (by omega))
    have ih2 := ih (ldNext m p) h5 (fun c hc => hd c (List.mem_cons_of_mem _ hc))
    rw [← hn] at ih2
    rw [markFree_cons]
    by_cases hba : b.addr = a
    · rw [if_pos hba]
      refine ⟨h1, h2, hs.trans h3, ?_, ih2⟩
      rw [h1, hba, ldFree_stFree]
      simp [boolByte]
    · rw [if_neg hba]
      refine ⟨h1, h2, hs.trans h3, ?_, ih2⟩
      rw [← h4]
      exact ldFree_congr (stFree_out _ _ _ _ (by omega))

theorem mem_markFree {a : Nat} {bs : List Blk} {c : Blk} (h : c ∈ markFree a bs) :
    ∃ c0 ∈ bs, c.addr = c0.addr := by
  simp only [markFree, List.mem_map] at h
  obtain ⟨c0, hc0, rfl⟩ := h
  refine ⟨c0, hc0, ?_⟩
  by_cases h : c0.addr = a
  · rw [if_pos h]
  · rw [if_neg h]

theorem sep_markFree (a : Nat) (bs : List Blk) (h : Sep bs) : Sep (markFree a bs) := by
  unfold Sep markFree
  rw [List.pairwise_map]
  refine h.imp ?_
  intro x y hxy
  by_cases hx : x.addr = a <;> by_cases hy : y.addr = a <;> simp only [hx, hy, if_true, if_false]
    <;> simpa [hx, hy] using hxy

/-- Effect of `free` on a state whose chain has pairwise disjoint headers, for
a pointer whose header is a block of the chain or is disjoint from all of them
and carries `free == 0`. -/
theorem free_spec (s : Heap) (bs : List Blk) (a fuel : Nat)
    (hch : Chain s.mem s.freeList bs) (hsep : Sep bs)
    (ha : ∀ b ∈ bs, b.addr = a ∨ a + HDR ≤ b.addr ∨ b.addr + HDR ≤ a)
    (hlt : a + HDR < WORD) (hused : ldFree s.mem a = 0) (hfuel : bs.length < fuel) :
    ∃ s' bs', free fuel s (BLOCK_DATA a) = Outcome.ret () s' ∧
      Chain s'.mem s'.freeList bs' ∧ NoAdjFree bs' ∧ ldFree s'.mem a = 1 ∧
      bs'.length ≤ bs.length := by
  obtain ⟨hp0, hhd⟩ := BLOCK_HEADER_DATA a hlt
  have hch1 := chain_markFree s.mem a bs s.freeList hch ha
  have hsep1 := sep_markFree a bs hsep
  have hlen1 : (markFree a bs).length = bs.length := by simp [markFree]
  obtain ⟨s', bs', h1, h2, h3, _, h5, h6, h7, _, _⟩ :=
    coalesceLoop_spec (markFree a bs).length (markFree a bs)
      { s with mem := stFree s.mem a 1, num_frees := s.num_frees + 1 } s.freeList fuel rfl
      hch1 hsep1 (by rw [hlen1]; exact hfuel)
  refine ⟨s', bs', ?_, ?_, h3, ?_, by rw [← hlen1]; exact h7⟩
  · unfold free
    rw [if_neg hp0, hhd, if_neg (by rw [hused]; exact fun h => h rfl)]
    simp only [h1]
  · rw [h6]
    exact h2
  · have hx : s'.mem (a + 16) = stFree s.mem a 1 (a + 16) := by
      refine h5 (a + 16) (fun c hc => ?_)
      obtain ⟨c0, hc0, hcc⟩ := mem_markFree hc
      have := ha c0 hc0
      unfold HDR at this
      omega
    rw [ldFree_congr hx, ldFree_stFree]

/-! ## `free` called twice -/

/-- A second `free` of the same pointer, on a chain with pairwise disjoint
headers: the first call returns, the second one stops at the `assert` in the
state the first call left. -/
theorem free_twice_disjoint (s : Heap) (bs : List Blk) (a fuel fuel2 : Nat)
    (hch : Chain s.mem s.freeList bs) (hsep : Sep bs)
    (ha : ∀ b ∈ bs, b.addr = a ∨ a + HDR ≤ b.addr ∨ b.addr + HDR ≤ a)
    (hlt : a + HDR < WORD) (hused : ldFree s.mem a = 0) (hfuel : bs.length < fuel) :
    ∃ s', free fuel s (BLOCK_DATA a) = Outcome.ret () s' ∧
      free fuel2 s' (BLOCK_DATA a) = Outcome.abort s' := by
  obtain ⟨s', _, h1, _, _, h4, _⟩ := free_spec s bs a fuel hch hsep ha hlt hused hfuel
  obtain ⟨hp0, hhd⟩ := BLOCK_HEADER_DATA a hlt
  refine ⟨s', h1, ?_⟩
  unfold free
  rw [if_neg hp0, hhd, if_pos (by rw [h4]; decide)]

/-- The `assert` of `free` is the only way for it to abort: on a header whose
byte `free` is zero the call does not abort, whatever the state. -/
theorem free_no_abort (s s' : Heap) (ptr fuel : Nat)
    (h : ldFree s.mem (BLOCK_HEADER ptr) = 0) : free fuel s ptr ≠ Outcome.abort s' := by
  unfold free
  by_cases hp : ptr = 0
  · rw [if_pos hp]
    exact fun h => Outcome.noConfusion h
  · rw [if_neg hp, if_neg (by rw [h]; exact fun h => h rfl)]
    simp only
    split <;> exact fun h => Outcome.noConfusion h

/-! ## Facts about single steps, for every state -/

/-- The header that the splitting code writes lies `size` bytes above the
header of the block it splits: `BLOCK_HEADER` takes back the `sizeof
(struct _block)` that `BLOCK_DATA` added. -/
theorem split_header_address (next size : Nat) (h : next + HDR + size < WORD) :
    BLOCK_HEADER ((BLOCK_DATA next + size) % WORD) = next + size := by
  unfold BLOCK_HEADER BLOCK_DATA
  unfold HDR WORD at *
  omega

/-- When `sbrk` cannot supply `sizeof (struct _block) + size` bytes, `growHeap`
stops at `assert (curr == prev)`: `curr` is the program break and `prev` is
`(void *) -1`. -/
theorem growHeap_abort (s : Heap) (last size : Nat) (h1 : s.brk ≤ s.brkMax)
    (h2 : s.brkMax < s.brk + (HDR + size) % WORD) (h3 : s.brk < WORD - 1) :
    growHeap s last size = Outcome.abort s := by
  have e0 : sbrk s 0 = (s.brk, s) := by
    unfold sbrk
    rw [if_pos (by omega)]
    rfl
  have e1 : sbrk s ((HDR + size) % WORD) = (WORD - 1, s) := by
    unfold sbrk
    rw [if_neg (by omega)]
  unfold growHeap
  simp only [e0, e1]
  rw [if_pos (by omega)]

/-- The next-fit search with `nextStart == NULL` returns `NULL` and leaves
`nextStart` and `*last` as they are, whatever the chain holds. -/
theorem findFreeBlock_next_unset (fuel : Nat) (s : Heap) (last size : Nat)
    (h : s.nextStart = 0) :
    findFreeBlock Fit.next (fuel + 1) s last size = some (0, last, s) := by
  simp [findFreeBlock, h, scanLoop]

/-- The best-fit and the worst-fit search never assign `*last`. -/
theorem findFreeBlock_best_worst_last (fuel : Nat) (s s' : Heap) (last size curr last' : Nat) :
    (findFreeBlock Fit.best fuel s last size = some (curr, last', s') → last' = last) ∧
    (findFreeBlock Fit.worst fuel s last size = some (curr, last', s') → last' = last) := by
  constructor
  · intro h
    simp only [findFreeBlock] at h
    split at h
    · exact Option.noConfusion h
    · simp only [Option.some.injEq, Prod.mk.injEq] at h
      exact h.2.1.symm
  · intro h
    simp only [findFreeBlock] at h
    split at h
    · exact Option.noConfusion h
    · simp only [Option.some.injEq, Prod.mk.injEq] at h
      exact h.2.1.symm

/-! ## The claims -/

/-- C1 (the code differs): when `free` absorbs a successor, the surviving
block's size grows by the successor's size only.  Two neighbouring blocks of
size 40, the second one free, become one free block of size 80 when the first
is freed, not of size `40 + 40 + (2 - 1) * sizeof (struct _block)`. -/
theorem free_coalesce_omits_header :
    coalesceTwo.value? = some ([(4096, 40, 0), (4160, 40, 1)], [(4096, 80, 1)]) ∧
      80 ≠ 40 + 40 + (2 - 1) * HDR := by
  decide

/-- C2 (the code differs): `malloc (40)` on a free block of size 100 whose
header is at 4096 returns the payload address 4120 and writes the header of
the new free block at 4136, which is not `4120 + 40` and lies inside the
payload range `4120 .. 4159` of the block just handed out. -/
theorem split_header_inside_payload :
    splitLarge.value? = some (4120, [(4096, 40, 0), (4136, 36, 1)]) ∧
      BLOCK_DATA 4096 = 4120 ∧ 4136 ≠ 4120 + 40 ∧ 4120 ≤ 4136 ∧ 4136 < 4120 + 40 := by
  decide

/-- C3 (the code differs): on an empty heap whose program break cannot move
by `2 ^ 31 + 24` bytes, `malloc (2 ^ 31)` does not return `NULL`: it ends in
the failed `assert` of `growHeap`. -/
theorem malloc_aborts_when_sbrk_fails :
    (malloc Fit.first 8 (initHeap (fun _ => 0) 4096 8192) (2 ^ 31)).aborted = true ∧
      (malloc Fit.first 8 (initHeap (fun _ => 0) 4096 8192) (2 ^ 31)).value? = none := by
  decide

/-- C4 (the code differs): under best fit and under worst fit the third of
three `malloc (40)` calls links the new block behind the first block of the
chain, so the second block, still allocated at address 4184, is no longer in
the chain; under first fit the chain keeps all three. -/
theorem best_worst_grow_unlinks_chain :
    (growThree Fit.best).value?
        = some ((4120, 4184, 4248), [(4096, 40, 0), (4224, 40, 0)]) ∧
      (growThree Fit.worst).value?
        = some ((4120, 4184, 4248), [(4096, 40, 0), (4224, 40, 0)]) ∧
      (growThree Fit.first).value?
        = some ((4120, 4184, 4248), [(4096, 40, 0), (4160, 40, 0), (4224, 40, 0)]) := by
  decide

/-- C5 (the code differs): under first fit, after `malloc (40)`, `malloc (40)`,
`free` of the first address, `malloc (4)` and `malloc (100)`, the second
allocation (address 4184, size 40) and the last one (address 4124, size 100)
are both live and their byte ranges intersect. -/
theorem first_fit_live_ranges_overlap :
    overlapRun.value? = some ((4184, 40), (4124, 100)) ∧
      4184 < 4124 + 100 ∧ 4124 < 4184 + 40 := by
  decide

/-- C6 (the code differs): `calloc (1, 40)` that reuses and splits a free block
of size 100 returns `p = 4120` with the bytes at `p + 16` and `p + 32` equal to
36 and 1: the header of the new free block, written after the `memset`, lies
inside the 40 bytes handed out. -/
theorem calloc_split_leaves_nonzero_bytes : zeroRun.value? = some (4120, 36, 1) := by
  decide

/-- C7 (the code differs): with next fit, in the state where the chain is one
free block of size 40 and `nextStart` is unset, the search for 40 bytes
returns `NULL`, where the first-fit search returns the block at 4096, and
`malloc (40)` grows the heap and returns 4184 instead of reusing 4120. -/
theorem next_fit_unset_cursor_finds_nothing :
    walk (oneFreeBlock Fit.next).mem 8 (oneFreeBlock Fit.next).freeList = [(4096, 40, 1)] ∧
      (oneFreeBlock Fit.next).nextStart = 0 ∧
      (findFreeBlock Fit.next 8 (oneFreeBlock Fit.next) 4096 40).map (fun r => r.1) = some 0 ∧
      (findFreeBlock Fit.first 8 (oneFreeBlock Fit.next) 4096 40).map (fun r => r.1)
        = some 4096 ∧
      (malloc Fit.next 8 (oneFreeBlock Fit.next) 40).value? = some 4184 := by
  decide

/-- C8 (the code differs): under first fit, after `malloc (100)`, `free`,
`malloc (8)` and `malloc (40)` the addresses 4120 and 4128 are live, and the
first `free (4120)` already ends in the failed `assert`. -/
theorem free_of_live_block_aborts :
    liveTwo.value? = some (4120, 4128) ∧
      (liveTwo.bind fun v s => free 8 s v.1).aborted = true := by
  decide

/-- Coalescing where no two headers share a byte: for every state whose chain
is finite with pairwise disjoint headers, and every pointer whose header is a
block of the chain, or lies apart from all of them, and is not free, `free`
returns, given fuel above the length of the chain, and afterwards no block of
the chain is free while its successor in the chain is free. -/
theorem free_coalesces_every_run (s : Heap) (bs : List Blk) (a fuel : Nat)
    (hch : Chain s.mem s.freeList bs) (hsep : Sep bs)
    (ha : ∀ b ∈ bs, b.addr = a ∨ a + HDR ≤ b.addr ∨ b.addr + HDR ≤ a)
    (hlt : a + HDR < WORD) (hused : ldFree s.mem a = 0) (hfuel : bs.length < fuel) :
    ∃ s' bs', free fuel s (BLOCK_DATA a) = Outcome.ret () s' ∧
      Chain s'.mem s'.freeList bs' ∧ NoAdjFree bs' := by
  obtain ⟨s', bs', h1, h2, h3, _⟩ := free_spec s bs a fuel hch hsep ha hlt hused hfuel
  exact ⟨s', bs', h1, h2, h3⟩

/-- The scenario of three blocks A, B, C of 40 bytes: after A and B were
freed the chain is a free block of size 80 and the used block C, with headers
apart; `free_coalesces_every_run` applies to the deallocation of C, and the
chain it leaves is one free block. -/
theorem free_coalesces_every_run_witness :
    freedTwoOfThree.value? = some (BLOCK_DATA 4224) ∧
    (∃ s' bs', free 8 (freedTwoOfThree.heapOr startHeap) (BLOCK_DATA 4224)
        = Outcome.ret () s' ∧ Chain s'.mem s'.freeList bs' ∧ NoAdjFree bs') ∧
    freedThree.value? =
      some ([(4096, 40, 1), (4160, 40, 0), (4224, 40, 0)], [(4096, 80, 1), (4224, 40, 0)],
        [(4096, 120, 1)]) :=
  ⟨by decide,
    free_coalesces_every_run (freedTwoOfThree.heapOr startHeap)
      [⟨4096, 80, true⟩, ⟨4224, 40, false⟩] 4224 8
      (by simp only [Chain]; decide) (by unfold Sep; decide) (by decide) (by decide)
      (by decide) (by decide),
    by decide⟩

/-- C10 (the code differs): `malloc (4)` on a free block of size 40 at 4096
writes the new header at 4100, inside the header it is splitting; afterwards
the used block has size 4 and the new free block reads size 17609365913600,
not `40 - 24 - 4 = 12`, so the three terms do not add up to 40. -/
theorem split_small_request_breaks_conservation :
    splitSmall.value? = some (4120, [(4096, 4, 0), (4100, 17609365913600, 1)]) ∧
      17609365913600 ≠ 40 - HDR - 4 ∧ 4 + 17609365913600 + HDR ≠ 40 := by
  decide

/-! ## The search, `malloc` and `calloc`, for every state -/

theorem malloc_unfold (fit : Fit) (fuel : Nat) (s : Heap) (size : Nat) :
    malloc fit fuel s size =
      if ALIGN4 size = 0 then Outcome.ret 0 (countRequest s size)
      else
        match findFreeBlock fit fuel (countRequest s size) (countRequest s size).freeList
            (ALIGN4 size) with
        | none => Outcome.fuelOut
        | some (next, last, s1) => mallocTail s1 next last (ALIGN4 size) := rfl

theorem countRequest_fields (s : Heap) (size : Nat) :
    (countRequest s size).mem = s.mem ∧ (countRequest s size).freeList = s.freeList ∧
    (countRequest s size).nextStart = s.nextStart ∧ (countRequest s size).brk = s.brk ∧
    (countRequest s size).brkMax = s.brkMax ∧
    (countRequest s size).num_reuses = s.num_reuses ∧
    (countRequest s size).num_grows = s.num_grows ∧
    (countRequest s size).max_heap = s.max_heap ∧
    (countRequest s size).num_blocks = s.num_blocks ∧
    (countRequest s size).num_mallocs = s.num_mallocs := by
  unfold countRequest
  simp only
  split <;> simp

/-- `malloc` after a search that found a block: the block is marked used and
its payload address is returned; the heap is not grown. -/
theorem mallocTail_found (s : Heap) (next last size : Nat) (hn : next ≠ 0) :
    ∃ s', mallocTail s next last size = Outcome.ret (BLOCK_DATA next) s' ∧
      s'.num_reuses = s.num_reuses + 1 ∧ s'.num_grows = s.num_grows ∧
      s'.max_heap = s.max_heap ∧ s'.brk = s.brk ∧
      s'.num_splits = (if (HDR + size) % WORD < ldSize s.mem next then s.num_splits + 1
        else s.num_splits) ∧
      s'.mem = stFree
        (if (HDR + size) % WORD < ldSize s.mem next
          then (splitBlock { s with num_reuses := s.num_reuses + 1 } next size).mem
          else s.mem) next 0 := by
  unfold mallocTail
  simp only [if_neg hn, if_pos hn]
  unfold Outcome.bind
  simp only [if_neg hn]
  by_cases hc : (HDR + size) % WORD < ldSize s.mem next
  · rw [if_pos ⟨hn, hc⟩, if_pos hc, if_pos hc]
    exact ⟨_, rfl, rfl, rfl, rfl, rfl, rfl, rfl⟩
  · rw [if_neg (fun h => hc h.2), if_neg hc, if_neg hc]
    exact ⟨_, rfl, rfl, rfl, rfl, rfl, rfl, rfl⟩

theorem ldSize_stFree (m : Mem) (b v : Nat) : ldSize (stFree m b v) b = ldSize m b :=
  ldSize_congr (fun x _ h2 => stFree_out _ _ _ _ (by omega))

theorem ldSize_stNext (m : Mem) (b v : Nat) : ldSize (stNext m b v) b = ldSize m b :=
  ldSize_congr (fun x _ h2 => stNext_out _ _ _ _ (by omega))

/-- A block that `growHeap` returns carries the requested size, and the call
adds one to `num_grows`. -/
theorem growHeap_ret (s : Heap) (last size b : Nat) (s1 : Heap)
    (h : growHeap s last size = Outcome.ret b s1) (hb : b ≠ 0) :
    ldSize s1.mem b = size % WORD ∧ s1.num_grows = s.num_grows + 1 ∧
      s1.num_splits = s.num_splits ∧ s1.num_mallocs = s.num_mallocs := by
  unfold growHeap at h
  simp only at h
  split at h
  · exact Outcome.noConfusion h
  · split at h
    · injection h with h1 h2
      exact absurd h1.symm hb
    · injection h with h1 h2
      subst h1 h2
      refine ⟨?_, ?_, ?_, ?_⟩
      · simp only
        rw [ldSize_stFree, ldSize_stNext, ldSize_stSize]
      · simp only
        unfold sbrk
        split <;> split <;> split <;> rfl
      · simp only
        unfold sbrk
        split <;> split <;> split <;> rfl
      · simp only
        unfold sbrk
        split <;> split <;> split <;> rfl

theorem scanLoop_post (m : Mem) (r : Nat) : ∀ (fuel curr last c l : Nat),
    scanLoop m r fuel curr last = some (c, l) → c ≠ 0 → r ≤ ldSize m c := by
  intro fuel
  induction fuel with
  | zero =>
    intro curr last c l h
    exact Option.noConfusion h
  | succ f ih =>
    intro curr last c l h hc
    rw [scanLoop] at h
    split at h
    · exact ih _ _ _ _ h hc
    · rename_i hcond
      simp only [Option.some.injEq, Prod.mk.injEq] at h
      rw [← h.1]
      by_contra hlt
      exact hcond ⟨h.1 ▸ hc, fun hh => hlt hh.2⟩

theorem bestLoop_post (m : Mem) (r : Nat) : ∀ (fuel curr cand res : Nat),
    (cand ≠ 0 → r ≤ ldSize m cand) → bestLoop m r fuel curr cand = some res →
    res ≠ 0 → r ≤ ldSize m res := by
  intro fuel
  induction fuel with
  | zero =>
    intro curr cand res _ h
    exact Option.noConfusion h
  | succ f ih =>
    intro curr cand res hcand h
    rw [bestLoop] at h
    split at h
    · refine ih _ _ _ ?_ h
      split
      · rename_i hq
        split
        · split
          · exact fun _ => hq.2
          · exact hcand
        · exact fun _ => hq.2
      · exact hcand
    · simp only [Option.some.injEq] at h
      rw [← h]
      exact hcand

theorem worstLoop_post (m : Mem) (r : Nat) : ∀ (fuel curr cand res : Nat),
    (cand ≠ 0 → r ≤ ldSize m cand) → worstLoop m r fuel curr cand = some res →
    res ≠ 0 → r ≤ ldSize m res := by
  intro fuel
  induction fuel with
  | zero =>
    intro curr cand res _ h
    exact Option.noConfusion h
  | succ f ih =>
    intro curr cand res hcand h
    rw [worstLoop] at h
    split at h
    · refine ih _ _ _ ?_ h
      split
      · rename_i hq
        split
        · split
          · exact fun _ => hq.2
          · exact hcand
        · exact fun _ => hq.2
      · exact hcand
    · simp only [Option.some.injEq] at h
      rw [← h]
      exact hcand

/-- Every search leaves the state as it was, up to `nextStart`, and a block it
returns has at least the size asked for. -/
theorem findFreeBlock_post (fit : Fit) (fuel : Nat) (s : Heap) (last r next last1 : Nat)
    (s1 : Heap) (h : findFreeBlock fit fuel s last r = some (next, last1, s1)) :
    s1 = { s with nextStart := s1.nextStart } ∧ (next ≠ 0 → r ≤ ldSize s.mem next) := by
  cases fit with
  | first =>
    simp only [findFreeBlock] at h
    split at h
    · exact Option.noConfusion h
    · rename_i c l hscan
      simp only [Option.some.injEq, Prod.mk.injEq] at h
      obtain ⟨h1, _, h3⟩ := h
      subst h1 h3
      exact ⟨rfl, scanLoop_post _ _ _ _ _ _ _ hscan⟩
  | best =>
    simp only [findFreeBlock] at h
    split at h
    · exact Option.noConfusion h
    · rename_i c hloop
      simp only [Option.some.injEq, Prod.mk.injEq] at h
      obtain ⟨h1, _, h3⟩ := h
      subst h3
      refine ⟨rfl, fun hn => ?_⟩
      have hc : c = next := by
        by_cases h0 : c = 0
        · rw [if_neg (fun hh => hh.1 h0)] at h1
          exact absurd h1.symm hn
        · rw [if_pos ⟨h0, trivial⟩] at h1
          exact h1
      subst hc
      exact bestLoop_post _ _ _ _ _ _ (fun hh => absurd rfl hh) hloop hn
  | worst =>
    simp only [findFreeBlock] at h
    split at h
    · exact Option.noConfusion h
    · rename_i c hloop
      simp only [Option.some.injEq, Prod.mk.injEq] at h
      obtain ⟨h1, _, h3⟩ := h
      subst h3
      refine ⟨rfl, fun hn => ?_⟩
      have hc : c = next := by
        by_cases h0 : c = 0
        · rw [if_neg (fun hh => hh.1 h0)] at h1
          exact absurd h1.symm hn
        · rw [if_pos ⟨h0, trivial⟩] at h1
          exact h1
      subst hc
      exact worstLoop_post _ _ _ _ _ _ (fun hh => absurd rfl hh) hloop hn
  | next =>
    simp only [findFreeBlock] at h
    split at h
    · exact Option.noConfusion h
    · rename_i c l hscan
      simp only [Option.some.injEq, Prod.mk.injEq] at h
      obtain ⟨h1, _, h3⟩ := h
      subst h1
      refine ⟨?_, scanLoop_post _ _ _ _ _ _ _ hscan⟩
      rw [← h3]
      split <;> rfl

/-- The field `size` of the block that `malloc` hands out, by the way the block
was obtained: grown, reused and split, or reused as it is. -/
theorem mallocTail_size (s : Heap) (next last size p : Nat) (s' : Heap) (hsz : size < WORD)
    (hq : next ≠ 0 → size ≤ ldSize s.mem next)
    (h : mallocTail s next last size = Outcome.ret p s') (hp : p ≠ 0) :
    ∃ b, p = BLOCK_DATA b ∧
      ((s'.num_grows = s.num_grows + 1 ∧ s'.num_splits = s.num_splits ∧
          ldSize s'.mem b = size) ∨
        (s'.num_grows = s.num_grows ∧ s'.num_splits = s.num_splits + 1 ∧
          ldSize s'.mem b = size) ∨
        (s'.num_grows = s.num_grows ∧ s'.num_splits = s.num_splits ∧
          ldSize s'.mem b = ldSize s.mem b ∧ size ≤ ldSize s.mem b ∧
          ldSize s.mem b ≤ (HDR + size) % WORD)) := by
  by_cases hn : next = 0
  · subst hn
    unfold mallocTail at h
    simp only [ne_eq, not_true_eq_false, if_false, false_and, if_true] at h
    cases hg : growHeap s last size with
    | ret b s1 =>
      rw [hg] at h
      simp only [Outcome.bind] at h
      by_cases hb : b = 0
      · simp only [hb, if_true, not_true_eq_false, if_false] at h
        injection h with h1 h2
        exact absurd h1.symm hp
      · simp only [hb, if_false, not_false_eq_true, if_true] at h
        injection h with h1 h2
        obtain ⟨g1, g2, g3, _⟩ := growHeap_ret s last size b s1 hg hb
        refine ⟨b, h1.symm, Or.inl ?_⟩
        subst h2
        refine ⟨g2, g3, ?_⟩
        simp only
        rw [ldSize_stFree, g1, Nat.mod_eq_of_lt hsz]
    | abort s1 =>
      rw [hg] at h
      exact Outcome.noConfusion h
    | fuelOut =>
      rw [hg] at h
      exact Outcome.noConfusion h
  · obtain ⟨s2, h1, _, h3, _, _, h6, h7⟩ := mallocTail_found s next last size hn
    rw [h1] at h
    injection h with e1 e2
    subst e2
    refine ⟨next, e1.symm, Or.inr ?_⟩
    by_cases hc : (HDR + size) % WORD < ldSize s.mem next
    · left
      rw [if_pos hc] at h6 h7
      refine ⟨h3, h6, ?_⟩
      rw [h7, ldSize_stFree]
      unfold splitBlock
      simp only
      rw [ldSize_stSize, Nat.mod_eq_of_lt hsz]
    · right
      rw [if_neg hc] at h6 h7
      refine ⟨h3, h6, ?_, hq hn, Nat.le_of_not_lt hc⟩
      rw [h7, ldSize_stFree]

theorem ALIGN4_cases (s : Nat) (hs : s < WORD) :
    (s ≤ WORD - 4 → 4 ∣ ALIGN4 s ∧ s ≤ ALIGN4 s ∧ ALIGN4 s < s + 4) ∧
    (WORD - 4 < s → ALIGN4 s = 0) := by
  unfold ALIGN4
  unfold WORD at *
  constructor
  · intro h
    refine ⟨?_, ?_, ?_⟩ <;> omega
  · intro h
    omega

theorem ALIGN4_lt (s : Nat) : ALIGN4 s < WORD := by
  unfold ALIGN4
  exact Nat.mod_lt _ (by decide)

theorem growHeap_num_mallocs (s : Heap) (last size b : Nat) (s1 : Heap)
    (h : growHeap s last size = Outcome.ret b s1) : s1.num_mallocs = s.num_mallocs := by
  unfold growHeap at h
  simp only at h
  split at h
  · exact Outcome.noConfusion h
  · split at h
    · injection h with h1 h2
      subst h2
      unfold sbrk
      split <;> split <;> rfl
    · injection h with h1 h2
      subst h2
      simp only
      unfold sbrk
      split <;> split <;> split <;> rfl

theorem calloc_unfold (fit : Fit) (fuel : Nat) (s : Heap) (nmemb size : Nat) :
    calloc fit fuel s nmemb size =
      if ALIGN4 ((nmemb * size) % WORD) = 0 then
        Outcome.ret 0 (countRequest s ((nmemb * size) % WORD))
      else
        match findFreeBlock fit fuel (countRequest s ((nmemb * size) % WORD))
            (countRequest s ((nmemb * size) % WORD)).freeList
            (ALIGN4 ((nmemb * size) % WORD)) with
        | none => Outcome.fuelOut
        | some (next, last, s1) => callocTail s1 next last (ALIGN4 ((nmemb * size) % WORD)) :=
  rfl

theorem callocTail_num_mallocs (s : Heap) (next last size p : Nat) (s' : Heap)
    (h : callocTail s next last size = Outcome.ret p s') : s'.num_mallocs = s.num_mallocs := by
  unfold callocTail at h
  by_cases hn : next = 0
  · subst hn
    simp only [ne_eq, not_true_eq_false, if_false, false_and, if_true] at h
    cases hg : growHeap s last size with
    | ret b s2 =>
      rw [hg] at h
      have m2 := growHeap_num_mallocs _ _ _ _ _ hg
      simp only [Outcome.bind] at h
      by_cases hb : b = 0
      · simp only [hb, if_true, not_true_eq_false, if_false] at h
        injection h with h1 h2
        rw [← h2, m2]
      · simp only [hb, if_false, not_false_eq_true, if_true] at h
        injection h with h1 h2
        rw [← h2]
        exact m2
    | abort s2 =>
      rw [hg] at h
      exact Outcome.noConfusion h
    | fuelOut =>
      rw [hg] at h
      exact Outcome.noConfusion h
  · simp only [if_neg hn, if_pos hn] at h
    simp only [Outcome.bind, if_neg hn] at h
    injection h with h1 h2
    rw [← h2]
    simp only
    split <;> rfl

/-- `calloc` never writes `num_mallocs`: whatever the state and the strategy,
a call that returns leaves the counter as it was. -/
theorem calloc_num_mallocs (fit : Fit) (fuel : Nat) (s : Heap) (nmemb size p : Nat)
    (s' : Heap) (h : calloc fit fuel s nmemb size = Outcome.ret p s') :
    s'.num_mallocs = s.num_mallocs := by
  rw [calloc_unfold] at h
  obtain ⟨_, _, _, _, _, _, _, _, _, c10⟩ := countRequest_fields s ((nmemb * size) % WORD)
  split at h
  · injection h with h1 h2
    rw [← h2]
    exact c10
  · split at h
    · exact Outcome.noConfusion h
    · rename_i next last s1 hfind
      obtain ⟨e1, _⟩ := findFreeBlock_post _ _ _ _ _ _ _ _ hfind
      rw [callocTail_num_mallocs _ _ _ _ _ _ h, e1]
      exact c10

theorem addToInt_zero (c : Int) (h1 : -2 ^ 31 ≤ c) (h2 : c < 2 ^ 31) : addToInt c 0 = c := by
  unfold addToInt
  norm_num at *
  omega

theorem ALIGN4_zero : ALIGN4 0 = 0 := by decide

theorem malloc_zero_aligned (fit : Fit) (fuel : Nat) (s : Heap) (size : Nat)
    (h : ALIGN4 size = 0) :
    malloc fit fuel s size = Outcome.ret 0
      { s with num_requested := addToInt s.num_requested size,
               atexit_registered := if s.atexit_registered = 0 then 1
                                    else s.atexit_registered } := by
  unfold malloc
  simp only [h, if_true]
  by_cases h0 : s.atexit_registered = 0
  · simp only [h0, if_true]
  · simp only [h0, if_false]

theorem calloc_zero_aligned (fit : Fit) (fuel : Nat) (s : Heap) (nmemb size : Nat)
    (h : ALIGN4 ((nmemb * size) % WORD) = 0) :
    calloc fit fuel s nmemb size = Outcome.ret 0
      { s with num_requested := addToInt s.num_requested ((nmemb * size) % WORD),
               atexit_registered := if s.atexit_registered = 0 then 1
                                    else s.atexit_registered } := by
  unfold calloc
  simp only [h, if_true]
  by_cases h0 : s.atexit_registered = 0
  · simp only [h0, if_true]
  · simp only [h0, if_false]

/-! ## The claims on the search, the counters and the sizes -/

/-- C14: in every state whose counter `num_requested` is an `int`, for every
strategy and every `n`, the calls `malloc (0)`, `calloc (n, 0)` and
`calloc (0, n)` return `NULL` and leave the state as it was, memory, chain and
counters, but for `atexit_registered`, which is set once. -/
theorem zero_requests_fail (fit : Fit) (fuel n : Nat) (s : Heap)
    (h1 : -2 ^ 31 ≤ s.num_requested) (h2 : s.num_requested < 2 ^ 31) :
    malloc fit fuel s 0 = Outcome.ret 0
        { s with atexit_registered := if s.atexit_registered = 0 then 1
                                      else s.atexit_registered } ∧
      calloc fit fuel s n 0 = Outcome.ret 0
        { s with atexit_registered := if s.atexit_registered = 0 then 1
                                      else s.atexit_registered } ∧
      calloc fit fuel s 0 n = Outcome.ret 0
        { s with atexit_registered := if s.atexit_registered = 0 then 1
                                      else s.atexit_registered } := by
  have e := addToInt_zero s.num_requested h1 h2
  refine ⟨?_, ?_, ?_⟩
  · rw [malloc_zero_aligned fit fuel s 0 ALIGN4_zero, e]
  · rw [calloc_zero_aligned fit fuel s n 0 (by rw [Nat.mul_zero]; decide), Nat.mul_zero,
      Nat.zero_mod, e]
  · rw [calloc_zero_aligned fit fuel s 0 n (by rw [Nat.zero_mul]; decide), Nat.zero_mul,
      Nat.zero_mod, e]

/-- C14 at the start state, with best fit, no fuel and `n = 7`. -/
theorem zero_requests_fail_witness :
    malloc Fit.best 0 startHeap 0 = Outcome.ret 0
        { startHeap with atexit_registered := if startHeap.atexit_registered = 0 then 1
                                              else startHeap.atexit_registered } ∧
      calloc Fit.best 0 startHeap 7 0 = Outcome.ret 0
        { startHeap with atexit_registered := if startHeap.atexit_registered = 0 then 1
                                              else startHeap.atexit_registered } ∧
      calloc Fit.best 0 startHeap 0 7 = Outcome.ret 0
        { startHeap with atexit_registered := if startHeap.atexit_registered = 0 then 1
                                              else startHeap.atexit_registered } :=
  zero_requests_fail Fit.best 0 7 startHeap (by decide) (by decide)

/-- C15 as stated fails: `malloc (20)` that reuses a free block of size 40,
too small to split, returns 4120 with the size field still 40, which is not
the least multiple of 4 that is at least 20. -/
theorem reused_block_keeps_size :
    reuseUnsplit.value? = some (4120, 40) ∧ ¬ (4 ∣ 40 ∧ 20 ≤ 40 ∧ 40 < 20 + 4) := by
  decide

/-- C15 as amended: whenever `malloc (size)` returns an address, the request fits
the aligned size `r`, the least multiple of 4 that is at least `size`, and the
header in front of the returned address holds the size `r` when the block was
grown or split off a larger one, and the unchanged size of the found block,
between `r` and `sizeof (struct _block) + r`, when it is reused as it is. -/
theorem malloc_block_size (fit : Fit) (fuel : Nat) (s : Heap) (size p : Nat) (s' : Heap)
    (hs : size < WORD) (h : malloc fit fuel s size = Outcome.ret p s') (hp : p ≠ 0) :
    (4 ∣ ALIGN4 size ∧ size ≤ ALIGN4 size ∧ ALIGN4 size < size + 4) ∧
    ∃ b, p = BLOCK_DATA b ∧
      ((s'.num_grows = s.num_grows + 1 ∧ s'.num_splits = s.num_splits ∧
          ldSize s'.mem b = ALIGN4 size) ∨
        (s'.num_grows = s.num_grows ∧ s'.num_splits = s.num_splits + 1 ∧
          ldSize s'.mem b = ALIGN4 size) ∨
        (s'.num_grows = s.num_grows ∧ s'.num_splits = s.num_splits ∧
          ldSize s'.mem b = ldSize s.mem b ∧ ALIGN4 size ≤ ldSize s.mem b ∧
          ldSize s.mem b ≤ (HDR + ALIGN4 size) % WORD)) := by
  rw [malloc_unfold] at h
  by_cases hr : ALIGN4 size = 0
  · rw [if_pos hr] at h
    injection h with h1 h2
    exact absurd h1.symm hp
  · rw [if_neg hr] at h
    have hle : size ≤ WORD - 4 := by
      by_contra hgt
      exact hr ((ALIGN4_cases size hs).2 (Nat.lt_of_not_le hgt))
    refine ⟨(ALIGN4_cases size hs).1 hle, ?_⟩
    obtain ⟨c1, _, _, _, _, _, c7, _, _, _⟩ := countRequest_fields s size
    split at h
    · exact Outcome.noConfusion h
    · rename_i next last s1 hfind
      obtain ⟨e1, e2⟩ := findFreeBlock_post _ _ _ _ _ _ _ _ hfind
      have m1 : s1.mem = s.mem := by rw [e1]; exact c1
      have g1 : s1.num_grows = s.num_grows := by rw [e1]; exact c7
      have p1 : s1.num_splits = s.num_splits := by
        rw [e1]
        unfold countRequest
        simp only
        split <;> rfl
      obtain ⟨b, hb, hcases⟩ := mallocTail_size s1 next last (ALIGN4 size) p s' (ALIGN4_lt size)
        (by rw [m1, ← c1]; exact e2) h hp
      rw [m1, g1, p1] at hcases
      exact ⟨b, hb, hcases⟩

/-- C15 as amended, at the call `malloc (20)` on one free block of size 40. -/
theorem malloc_block_size_witness :
    (malloc Fit.first 8 (oneFreeBlock Fit.first) 20).value? = some 4120 ∧
    ((4 ∣ ALIGN4 20 ∧ 20 ≤ ALIGN4 20 ∧ ALIGN4 20 < 20 + 4) ∧
    ∃ b, 4120 = BLOCK_DATA b ∧
      ((afterReuse.num_grows = (oneFreeBlock Fit.first).num_grows + 1 ∧
          afterReuse.num_splits = (oneFreeBlock Fit.first).num_splits ∧
          ldSize afterReuse.mem b = ALIGN4 20) ∨
        (afterReuse.num_grows = (oneFreeBlock Fit.first).num_grows ∧
          afterReuse.num_splits = (oneFreeBlock Fit.first).num_splits + 1 ∧
          ldSize afterReuse.mem b = ALIGN4 20) ∨
        (afterReuse.num_grows = (oneFreeBlock Fit.first).num_grows ∧
          afterReuse.num_splits = (oneFreeBlock Fit.first).num_splits ∧
          ldSize afterReuse.mem b = ldSize (oneFreeBlock Fit.first).mem b ∧
          ALIGN4 20 ≤ ldSize (oneFreeBlock Fit.first).mem b ∧
          ldSize (oneFreeBlock Fit.first).mem b ≤ (HDR + ALIGN4 20) % WORD))) :=
  ⟨by decide,
    malloc_block_size Fit.first 8 (oneFreeBlock Fit.first) 20 4120 afterReuse
      (by decide) rfl (by decide)⟩

/-- C16 (the code differs): `calloc (1, 40)` on the empty heap returns the
address 4120 and `num_mallocs` is still 0; the `malloc (40)` that follows
brings it to 1. -/
theorem calloc_skips_num_mallocs : callocOnce.value? = some (4120, 0, 1) := by
  decide

/-- C17 (the code differs): under first fit, after `malloc (40)`, `malloc (40)`,
`free` of the first address and `malloc (4)`, the chain from `freeList` has
two blocks while `num_blocks` is 3 and `num_grows` is 2. -/
theorem num_blocks_counts_lost_block :
    lostBlock.value? = some ([(4096, 4, 0), (4100, 17609365913600, 1)], 3, 2) ∧
      ([(4096, 4, 0), (4100, 17609365913600, 1)] : List (Nat × Nat × Nat)).length ≠ 3 := by
  decide

/-- C18 (the code differs): under first fit, after `malloc (100)`, `free` and
`malloc (16)`, the chain holds the used block of size 16 and a free block of
size 0 at 4112. -/
theorem split_leaves_zero_size_block :
    zeroSizeBlock.value? = some (4120, [(4096, 16, 0), (4112, 0, 1)]) := by
  decide

/-- C19: for every `size_t` value `s`, if `s ≤ 2 ^ 64 - 4` then `ALIGN4 (s)` is
the least multiple of 4 that is at least `s`; if `s` is one of the three
larger values then `ALIGN4 (s)` is 0 and `malloc (s)` returns `NULL` for every
strategy and any fuel, with memory, program break, chain head, `nextStart` and
the counters of reuses, grows, splits, blocks and allocations as they were. -/
theorem ALIGN4_wrap_around (s : Nat) (hs : s < WORD) :
    (s ≤ WORD - 4 → 4 ∣ ALIGN4 s ∧ s ≤ ALIGN4 s ∧ ALIGN4 s < s + 4) ∧
    (WORD - 4 < s → ALIGN4 s = 0 ∧
      ∀ (fit : Fit) (fuel : Nat) (h : Heap), ∃ h', malloc fit fuel h s = Outcome.ret 0 h' ∧
        h'.mem = h.mem ∧ h'.brk = h.brk ∧ h'.freeList = h.freeList ∧
        h'.nextStart = h.nextStart ∧ h'.num_reuses = h.num_reuses ∧
        h'.num_grows = h.num_grows ∧ h'.num_splits = h.num_splits ∧
        h'.num_blocks = h.num_blocks ∧ h'.num_mallocs = h.num_mallocs ∧
        h'.max_heap = h.max_heap) := by
  obtain ⟨c1, c2⟩ := ALIGN4_cases s hs
  refine ⟨c1, fun hgt => ⟨c2 hgt, fun fit fuel h => ?_⟩⟩
  exact ⟨_, malloc_zero_aligned fit fuel h s (c2 hgt), rfl, rfl, rfl, rfl, rfl, rfl, rfl, rfl,
    rfl, rfl⟩

/-- C19 at `s = 5`, where `ALIGN4` gives 8, at `s = 0` and at the largest
value `s = 2 ^ 64 - 1`, where it gives 0. -/
theorem ALIGN4_wrap_around_witness :
    ALIGN4 0 = 0 ∧ ALIGN4 5 = 8 ∧ ALIGN4 (WORD - 4) = WORD - 4 ∧
    (4 ∣ ALIGN4 5 ∧ 5 ≤ ALIGN4 5 ∧ ALIGN4 5 < 5 + 4) ∧
    (ALIGN4 (WORD - 1) = 0 ∧
      ∀ (fit : Fit) (fuel : Nat) (h : Heap), ∃ h', malloc fit fuel h (WORD - 1)
          = Outcome.ret 0 h' ∧
        h'.mem = h.mem ∧ h'.brk = h.brk ∧ h'.freeList = h.freeList ∧
        h'.nextStart = h.nextStart ∧ h'.num_reuses = h.num_reuses ∧
        h'.num_grows = h.num_grows ∧ h'.num_splits = h.num_splits ∧
        h'.num_blocks = h.num_blocks ∧ h'.num_mallocs = h.num_mallocs ∧
        h'.max_heap = h.max_heap) :=
  ⟨by decide, by decide, by decide, (ALIGN4_wrap_around 5 (by decide)).1 (by decide),
    (ALIGN4_wrap_around (WORD - 1) (by decide)).2 (by decide)⟩

/-- Termination where no two headers share a byte: on every finite chain with
pairwise disjoint headers the coalescing loop of `free` ends, given fuel above
the number `n` of blocks.  The absorptions, which the loop counts in
`num_coalesces` and takes off `num_blocks`, are as many as the chain gets
shorter, and at most `n - 1`. -/
theorem coalesce_terminates (s : Heap) (bs : List Blk) (t fuel : Nat)
    (hch : Chain s.mem t bs) (hsep : Sep bs) (hfuel : bs.length < fuel) :
    ∃ s' bs', coalesceLoop fuel s t = some s' ∧ Chain s'.mem t bs' ∧
      bs'.length ≤ bs.length ∧ bs.length - bs'.length ≤ bs.length - 1 ∧
      s'.num_coalesces = s.num_coalesces + ((bs.length - bs'.length : Nat) : Int) ∧
      s'.num_blocks = s.num_blocks - ((bs.length - bs'.length : Nat) : Int) := by
  obtain ⟨s', bs', h1, h2, _, h4, _, _, h7, h8, h9⟩ :=
    coalesceLoop_spec bs.length bs s t fuel rfl hch hsep hfuel
  refine ⟨s', bs', h1, h2, h7, ?_, ?_, ?_⟩
  · cases bs with
    | nil => simp
    | cons a rest =>
      cases bs' with
      | nil => simp at h4
      | cons a' rest' =>
        simp only [List.length_cons]
        omega
  · rw [h8, Nat.cast_sub h7]
  · rw [h9, Nat.cast_sub h7]

/-- The loop entry of the last `free` in the scenario of three blocks, where
`coalesce_terminates` applies: the chain of two free blocks becomes one block
with one absorption. -/
theorem coalesce_terminates_witness :
    (∃ s' bs', coalesceLoop 8 loopEntry 4096 = some s' ∧ Chain s'.mem 4096 bs' ∧
      bs'.length ≤ 2 ∧ 2 - bs'.length ≤ 2 - 1 ∧
      s'.num_coalesces = loopEntry.num_coalesces + ((2 - bs'.length : Nat) : Int) ∧
      s'.num_blocks = loopEntry.num_blocks - ((2 - bs'.length : Nat) : Int)) ∧
    (coalesceLoop 8 loopEntry 4096).map
        (fun s => (walk s.mem 8 4096, s.num_coalesces, s.num_blocks))
      = some ([(4096, 120, 1)], 2, 1) ∧
    (loopEntry.num_coalesces, loopEntry.num_blocks) = (1, 2) :=
  ⟨coalesce_terminates loopEntry [⟨4096, 80, true⟩, ⟨4224, 40, true⟩] 4096 8
      (by simp only [Chain]; decide) (by unfold Sep; decide) (by decide),
    by decide, by decide⟩

/-! ## `free` on chains whose headers share bytes -/

theorem coalesceLoop_absorb_step (fuel : Nat) (s : Heap) (t : Nat) (ht : t ≠ 0)
    (h : ldNext s.mem t ≠ 0 ∧ ldFree s.mem t = 1 ∧ ldFree s.mem (ldNext s.mem t) = 1) :
    coalesceLoop (fuel + 1) s t = coalesceLoop fuel (absorb s t) t :=
  coalesceLoop_absorb fuel s t ht h

/-- After the absorption at 4360 the loop of `free` walks from 4360 to 4352
and back, without a store, whatever the fuel. -/
theorem loop_spins : ∀ fuel : Nat,
    coalesceLoop fuel (absorb loopStart 4360) 4360 = none ∧
    coalesceLoop fuel (absorb loopStart 4360) 4352 = none := by
  intro fuel
  induction fuel with
  | zero => exact ⟨rfl, rfl⟩
  | succ f ih =>
    constructor
    · rw [coalesceLoop_advance f (absorb loopStart 4360) 4360 (by decide) (by decide)]
      have e : ldNext (absorb loopStart 4360).mem 4360 = 4352 := by decide
      rw [e]
      exact ih.2
    · rw [coalesceLoop_advance f (absorb loopStart 4360) 4352 (by decide) (by decide)]
      have e : ldNext (absorb loopStart 4360).mem 4352 = 4360 := by decide
      rw [e]
      exact ih.1

/-- From `loopStart` the loop of `free` passes the blocks at 4096 and 4136,
absorbs once at 4360 and then never ends. -/
theorem loop_never_ends (fuel : Nat) : coalesceLoop fuel loopStart 4096 = none := by
  cases fuel with
  | zero => rfl
  | succ f =>
    rw [coalesceLoop_advance f loopStart 4096 (by decide) (by decide)]
    have e1 : ldNext loopStart.mem 4096 = 4136 := by decide
    rw [e1]
    cases f with
    | zero => rfl
    | succ f =>
      rw [coalesceLoop_advance f loopStart 4136 (by decide) (by decide)]
      have e2 : ldNext loopStart.mem 4136 = 4360 := by decide
      rw [e2]
      cases f with
      | zero => rfl
      | succ f =>
        rw [coalesceLoop_absorb_step f loopStart 4360 (by decide) (by decide)]
        exact (loop_spins f).1

theorem free_never_returns (fuel : Nat) :
    free fuel beforeLastFree 4120 = Outcome.fuelOut := by
  have h0 : ldFree beforeLastFree.mem (BLOCK_HEADER 4120) = 0 := by decide
  have hl : coalesceLoop fuel loopStart loopStart.freeList = none := by
    have e : loopStart.freeList = 4096 := by decide
    rw [e]
    exact loop_never_ends fuel
  unfold free
  rw [if_neg (by decide), if_neg (by rw [h0]; exact fun h => h rfl)]
  show (match coalesceLoop fuel loopStart loopStart.freeList with
    | none => Outcome.fuelOut
    | some s2 => Outcome.ret () s2) = Outcome.fuelOut
  rw [hl]

/-- C9 (the code differs): under first fit, after `malloc (100)`, `malloc (4)`,
`free` of the first address and `malloc (16)`, the chain is the used block at
4096, a free block at 4112 and the used block at 4220, and the addresses 4244
and 4120 are live.  `free (4244)` returns and leaves the block at 4096, whose
byte `free` is now 4, in front of the free block at 4112: the first-fit test
`curr->free` takes both as free, and the next `malloc (16)` hands out 4120 a
second time. -/
theorem free_leaves_adjacent_free_blocks :
    adjacentFreeLeft.value? =
      some ((4244, 4120), [(4096, 16, 0), (4112, 0, 1), (4220, 4, 0)],
        [(4096, 16, 4), (4112, 4, 1)], 4120) := by
  decide

/-- C20 (the code differs): after `malloc (1000)`, `free`, `malloc (40)` and
`malloc (800)` the program holds the regions at 4120 (40 bytes) and at 4160
(800 bytes), and every store of `beforeLastFree` lies inside them.  When
`free (4120)` enters its loop the chain is finite and without a cycle, five
blocks at 4096, 4136, 4360, 4608, 4352 and then `NULL`; the headers at 4352
and 4360 share bytes.  The absorption at 4360 stores the sum of the sizes,
4360, over the field `next` of the block at 4352, and the loop walks between
the two for ever: `free` does not return, whatever the fuel. -/
theorem coalesce_loop_never_ends :
    twoLive.value? = some (4120, 4160) ∧
    (4120 ≤ 4144 ∧ 4144 + 8 ≤ 4120 + 40) ∧ (4160 ≤ 4360 ∧ 4624 + 1 ≤ 4160 + 800) ∧
    ldFree beforeLastFree.mem (BLOCK_HEADER 4120) = 0 ∧
    walk loopStart.mem 8 loopStart.freeList
      = [(4096, 40, 1), (4136, 800, 0), (4360, 0, 1), (4608, 4360, 1), (4352, 0, 0)] ∧
    ldNext loopStart.mem 4352 = 0 ∧
    (∀ fuel : Nat, coalesceLoop fuel loopStart loopStart.freeList = none) ∧
    (∀ fuel : Nat, free fuel beforeLastFree 4120 = Outcome.fuelOut) :=
  ⟨by decide, by decide, by decide, by decide, by decide, by decide,
    fun fuel => by
      have e : loopStart.freeList = 4096 := by decide
      rw [e]
      exact loop_never_ends fuel,
    free_never_returns⟩

end HeapAlloc
